import Mathlib

/-!
Verification development for the sona-router protocol-translation gateway.

The definitions below are a shallow embedding of the TypeScript sources:

* `src/config.ts`               — model routing (`resolveModel`);
* `src/providers/base.ts`       — request translation
  (`convertClaudeMessageToOpenAI`) and non-streaming response translation
  (`convertOpenAIToClaude`, `mapFinishReason`);
* `src/providers/ollama.ts` and `src/providers/lmstudio.ts` — the
  streaming relay state machine (their `stream` bodies are identical in
  the relayed region, so one embedding `runStream` covers both) and the
  model readiness orchestrator (`ensureModelReady`, ollama only).

JavaScript `Map` objects are modelled as insertion-ordered association
lists, JS string/number truthiness is made explicit (`"" `/`0` are falsy),
`JSON.parse` is modelled by an executable recursive-descent parser
`jsonParse` over the inductive `Js` (integer numerals only; a decode
failure is an `Except.error`, matching a thrown exception), and
`JSON.stringify` by `jsonStringify`.
-/

namespace SonaRouter

/-- Opening curly brace character (written via its code point). -/
def lbrace : Char := Char.ofNat 123

/-- Closing curly brace character (written via its code point). -/
def rbrace : Char := Char.ofNat 125

/-- JSON values, as produced by `JSON.parse` / consumed by `JSON.stringify`.
A number is modelled as the exact decimal `mantissa × 10 ^ exponent` its
literal denotes, rather than the IEEE-754 double JS rounds it to. -/
inductive Js where
  | null
  | bool (b : Bool)
  | num (mantissa : Int) (exponent : Int)
  | str (s : String)
  | arr (xs : List Js)
  | obj (fields : List (String × Js))
deriving Repr

/-- Skip JSON whitespace. -/
def skipWs : List Char → List Char
  | [] => []
  | c :: cs =>
    if c = ' ' ∨ c = '\t' ∨ c = '\n' ∨ c = '\r' then skipWs cs else c :: cs

/-- Numeric value of a decimal digit run. -/
def digitsVal (ds : List Char) : Nat :=
  ds.foldl (fun a c => a * 10 + (c.toNat - 48)) 0

/-- Is this a hexadecimal digit? -/
def isHexDigitCh (c : Char) : Bool :=
  c.isDigit ∨ ('a' ≤ c ∧ c ≤ 'f') ∨ ('A' ≤ c ∧ c ≤ 'F')

/-- Numeric value of one hexadecimal digit. -/
def hexDigitVal (c : Char) : Nat :=
  if c.isDigit then c.toNat - 48
  else if 'a' ≤ c ∧ c ≤ 'f' then c.toNat - 87
  else c.toNat - 55

/-- Parse the remaining characters of a JSON string literal (the opening
quote has been consumed); returns the decoded characters and the rest.
Handles the JSON escapes including `\uXXXX` (a lone surrogate collapses
to the null character, as `Char` carries scalar values only) and rejects
raw control characters, as `JSON.parse` does. -/
def parseStrChars : List Char → Except String (List Char × List Char)
  | [] => Except.error "unterminated string"
  | '"' :: cs => Except.ok ([], cs)
  | '\\' :: 'u' :: h1 :: h2 :: h3 :: h4 :: cs =>
    if isHexDigitCh h1 ∧ isHexDigitCh h2 ∧ isHexDigitCh h3 ∧ isHexDigitCh h4 then
      let code := ((hexDigitVal h1 * 16 + hexDigitVal h2) * 16 + hexDigitVal h3) * 16
        + hexDigitVal h4
      match parseStrChars cs with
      | Except.ok (s, rest) => Except.ok (Char.ofNat code :: s, rest)
      | Except.error m => Except.error m
    else Except.error "invalid unicode escape"
  | '\\' :: e :: cs =>
    let esc : Except String Char :=
      if e = '"' then Except.ok '"'
      else if e = '\\' then Except.ok '\\'
      else if e = '/' then Except.ok '/'
      else if e = 'n' then Except.ok '\n'
      else if e = 't' then Except.ok '\t'
      else if e = 'r' then Except.ok '\r'
      else if e = 'b' then Except.ok (Char.ofNat 8)
      else if e = 'f' then Except.ok (Char.ofNat 12)
      else Except.error "unsupported escape"
    match esc with
    | Except.ok ch =>
      match parseStrChars cs with
      | Except.ok (s, rest) => Except.ok (ch :: s, rest)
      | Except.error m => Except.error m
    | Except.error m => Except.error m
  | '\\' :: [] => Except.error "unterminated escape"
  | c :: cs =>
    if c.toNat < 32 then Except.error "unescaped control character"
    else
      match parseStrChars cs with
      | Except.ok (s, rest) => Except.ok (c :: s, rest)
      | Except.error m => Except.error m

/-- Parse a JSON number: the full grammar
`-? (0 | [1-9][0-9]*) (.[0-9]+)? ([eE][+-]?[0-9]+)?` — leading zeros,
empty fractions and empty exponents are rejected, exactly as
`JSON.parse` rejects them. -/
def parseNum (cs : List Char) : Except String (Js × List Char) :=
  let signed := match cs with
    | '-' :: rest => (true, rest)
    | _ => (false, cs)
  let neg := signed.1
  let intDs := signed.2.takeWhile Char.isDigit
  let rest1 := signed.2.dropWhile Char.isDigit
  if intDs = [] then Except.error "invalid number"
  else if 1 < intDs.length ∧ intDs.head? = some '0' then
    Except.error "invalid number: leading zero"
  else
    let fracRes : Except String (List Char × List Char) :=
      match rest1 with
      | '.' :: r =>
        let fds := r.takeWhile Char.isDigit
        if fds = [] then Except.error "invalid number: empty fraction"
        else Except.ok (fds, r.dropWhile Char.isDigit)
      | _ => Except.ok ([], rest1)
    match fracRes with
    | Except.error m => Except.error m
    | Except.ok (fracDs, rest2) =>
      let expRes : Except String (Int × List Char) :=
        match rest2 with
        | e :: r =>
          if e = 'e' ∨ e = 'E' then
            let esigned := match r with
              | '+' :: rr => (false, rr)
              | '-' :: rr => (true, rr)
              | _ => (false, r)
            let eds := esigned.2.takeWhile Char.isDigit
            if eds = [] then Except.error "invalid number: empty exponent"
            else
              let en : Int := (digitsVal eds : Int)
              Except.ok (if esigned.1 then -en else en, esigned.2.dropWhile Char.isDigit)
          else Except.ok (0, rest2)
        | [] => Except.ok (0, rest2)
      match expRes with
      | Except.error m => Except.error m
      | Except.ok (ex, rest3) =>
        let mantNat : Nat := digitsVal (intDs ++ fracDs)
        let mant : Int := if neg then -(mantNat : Int) else (mantNat : Int)
        Except.ok (Js.num mant (ex - (fracDs.length : Int)), rest3)

mutual

/-- Recursive-descent JSON value parser (fuel-indexed). -/
def parseVal : Nat → List Char → Except String (Js × List Char)
  | 0, _ => Except.error "out of fuel"
  | Nat.succ fuel, cs =>
    match skipWs cs with
    | [] => Except.error "unexpected end of input"
    | c :: rest =>
      if c = '"' then
        match parseStrChars rest with
        | Except.ok (s, r) => Except.ok (Js.str (String.mk s), r)
        | Except.error m => Except.error m
      else if c = '[' then
        match skipWs rest with
        | ']' :: r => Except.ok (Js.arr [], r)
        | other => parseArrItems fuel other []
      else if c = lbrace then
        match skipWs rest with
        | [] => Except.error "unterminated object"
        | d :: r =>
          if d = rbrace then Except.ok (Js.obj [], r)
          else parseObjItems fuel (d :: r) []
      else if c = 'n' then
        match rest with
        | 'u' :: 'l' :: 'l' :: r => Except.ok (Js.null, r)
        | _ => Except.error "invalid literal"
      else if c = 't' then
        match rest with
        | 'r' :: 'u' :: 'e' :: r => Except.ok (Js.bool true, r)
        | _ => Except.error "invalid literal"
      else if c = 'f' then
        match rest with
        | 'a' :: 'l' :: 's' :: 'e' :: r => Except.ok (Js.bool false, r)
        | _ => Except.error "invalid literal"
      else if c.isDigit ∨ c = '-' then parseNum (c :: rest)
      else Except.error "unexpected character"

/-- Parse the items of a non-empty JSON array (after the opening bracket). -/
def parseArrItems : Nat → List Char → List Js → Except String (Js × List Char)
  | 0, _, _ => Except.error "out of fuel"
  | Nat.succ fuel, cs, acc =>
    match parseVal fuel cs with
    | Except.error m => Except.error m
    | Except.ok (v, r) =>
      match skipWs r with
      | ',' :: r2 => parseArrItems fuel r2 (acc ++ [v])
      | ']' :: r2 => Except.ok (Js.arr (acc ++ [v]), r2)
      | _ => Except.error "expected comma or closing bracket"

/-- Parse the fields of a non-empty JSON object (after the opening brace). -/
def parseObjItems : Nat → List Char → List (String × Js) →
    Except String (Js × List Char)
  | 0, _, _ => Except.error "out of fuel"
  | Nat.succ fuel, cs, acc =>
    match skipWs cs with
    | '"' :: r =>
      match parseStrChars r with
      | Except.error m => Except.error m
      | Except.ok (key, r2) =>
        match skipWs r2 with
        | ':' :: r3 =>
          match parseVal fuel r3 with
          | Except.error m => Except.error m
          | Except.ok (v, r4) =>
            match skipWs r4 with
            | ',' :: r5 => parseObjItems fuel r5 (acc ++ [(String.mk key, v)])
            | c :: r5 =>
              if c = rbrace then Except.ok (Js.obj (acc ++ [(String.mk key, v)]), r5)
              else Except.error "expected comma or closing brace"
            | [] => Except.error "unterminated object"
        | _ => Except.error "expected colon"
    | _ => Except.error "expected string key"

end

/-- Model of `JSON.parse`: parse a whole string as one JSON value; anything left
over after the value (apart from whitespace) is an error, as is any
malformed input.  A JS exception is modelled by `Except.error`. -/
def jsonParse (s : String) : Except String Js :=
  match parseVal (s.length + 1) s.data with
  | Except.error m => Except.error m
  | Except.ok (v, rest) =>
    if skipWs rest = [] then Except.ok v else Except.error "trailing characters"

/-- Escape one character for a JSON string literal. -/
def escapeChar (c : Char) : String :=
  if c = '"' then "\\\""
  else if c = '\\' then "\\\\"
  else if c = '\n' then "\\n"
  else if c = '\t' then "\\t"
  else if c = '\r' then "\\r"
  else String.singleton c

/-- Serialize a string as a JSON string literal. -/
def escapeJsonStr (s : String) : String :=
  "\"" ++ String.join (s.data.map escapeChar) ++ "\""

/-- Serialize the decimal `m × 10 ^ e` in plain decimal notation (the
common-case formatting of JS number serialization; the very large /
very small magnitudes JS switches to e-notation for are printed in
plain decimal by this model). -/
def stringifyNum (m : Int) (e : Int) : String :=
  if 0 ≤ e then toString (m * (10 : Int) ^ e.toNat)
  else
    let k := (-e).toNat
    let ds := (toString m.natAbs).data
    let ds := if ds.length < k + 1 then List.replicate (k + 1 - ds.length) '0' ++ ds else ds
    (if m < 0 then "-" else "")
      ++ String.mk (ds.take (ds.length - k)) ++ "." ++ String.mk (ds.drop (ds.length - k))

mutual

/-- Model of `JSON.stringify` over the `Js` model. -/
def jsonStringify : Js → String
  | Js.null => "null"
  | Js.bool true => "true"
  | Js.bool false => "false"
  | Js.num m e => stringifyNum m e
  | Js.str s => escapeJsonStr s
  | Js.arr xs => "[" ++ stringifyArr xs ++ "]"
  | Js.obj fs => "\x7b" ++ stringifyObj fs ++ "\x7d"

/-- Comma-separated serialization of array elements. -/
def stringifyArr : List Js → String
  | [] => ""
  | [x] => jsonStringify x
  | x :: y :: xs => jsonStringify x ++ "," ++ stringifyArr (y :: xs)

/-- Comma-separated serialization of object fields. -/
def stringifyObj : List (String × Js) → String
  | [] => ""
  | [(k, v)] => escapeJsonStr k ++ ":" ++ jsonStringify v
  | (k, v) :: f :: fs =>
    escapeJsonStr k ++ ":" ++ jsonStringify v ++ "," ++ stringifyObj (f :: fs)

end

/-! ## Model routing (`src/config.ts`, `resolveModel`, lines 137-155)

A routing table (`ModelRouting`, a JS object) is modelled as an
insertion-ordered association list, matching `Object.entries` iteration
order.  The JS truthiness test `if (routing[requestedModel])` is explicit:
a missing key or an empty-string value both fall through. -/

/-- JS `s.startsWith(p)`, computed on the character lists. -/
def strStartsWith (s p : String) : Bool :=
  p.data.isPrefixOf s.data

/-- Steps (2)-(3) of `resolveModel`: return the first entry, in defined
order, whose key is a prefix of the requested name, else the default. -/
def resolveFallback (routing : List (String × String))
    (defaultModel requested : String) : String :=
  match routing.find? (fun kv => strStartsWith requested kv.1) with
  | some kv => kv.2
  | none => defaultModel

/-- The router `resolveModel`: exact-match lookup guarded by JS truthiness, then
prefix matching in defined order, then the configured default model. -/
def resolveModel (routing : List (String × String))
    (defaultModel requested : String) : String :=
  match List.lookup requested routing with
  | some v => if v = "" then resolveFallback routing defaultModel requested else v
  | none => resolveFallback routing defaultModel requested

/-- Spec-side routing rule, following the words of the specification
(§4.1/§8): exact match against routing-table keys takes precedence
unconditionally; else first prefix match in defined order; else the
default model.  Used to compare `resolveModel` against the spec. -/
def resolveModelSpec (routing : List (String × String))
    (defaultModel requested : String) : String :=
  match List.lookup requested routing with
  | some v => v
  | none => resolveFallback routing defaultModel requested

/-! ## Client-side data model (`src/types.ts`)

Only the pieces the translators inspect are carried.  Payloads of block
kinds the translator never reads (image, thinking, redacted thinking,
document) are collapsed to a plain string payload. -/

/-- A Claude content block (`ClaudeContentBlock`).  The `tool_result`
content is a plain string or a list of text blocks (their texts). -/
inductive ClaudeBlock where
  | text (t : String)
  | toolUse (id name : String) (input : Js)
  | toolResult (toolUseId : String) (content : Sum String (List String))
      (isError : Option Bool)
  | image (source : String)
  | thinking (ct signature : String)
  | redactedThinking (data : String)
  | document (source : String)
deriving Repr

/-- Message content: a plain string or an ordered block sequence. -/
inductive ClaudeMsgContent where
  | str (s : String)
  | blocks (bs : List ClaudeBlock)
deriving Repr

/-- A client message (`ClaudeMessage`); role is `"user"` or `"assistant"`. -/
structure ClaudeMessage where
  role : String
  content : ClaudeMsgContent
deriving Repr

/-- A backend tool call (`OpenAIToolCall`): the constant `type:'function'`
wrapper is dropped; `name`/`arguments` are the `function` fields. -/
structure OpenAIToolCall where
  id : String
  name : String
  arguments : String
deriving Repr, DecidableEq

/-- A backend chat message (`OpenAIMessage`); `content` is string-or-null,
`tool_calls`/`tool_call_id` are present only when set. -/
structure OpenAIMessage where
  role : String
  content : Option String
  tool_calls : Option (List OpenAIToolCall)
  tool_call_id : Option String
deriving Repr, DecidableEq

/-- The `block.text` of each text block of `bs`
(the `textBlocks` group of `convertClaudeMessageToOpenAI`). -/
def textBlocksOf (bs : List ClaudeBlock) : List String :=
  bs.filterMap fun b =>
    match b with
    | ClaudeBlock.text t => some t
    | _ => none

/-- The `(id, name, input)` of each tool-use block of `bs`
(the `toolUseBlocks` group). -/
def toolUseBlocksOf (bs : List ClaudeBlock) : List (String × String × Js) :=
  bs.filterMap fun b =>
    match b with
    | ClaudeBlock.toolUse id name input => some (id, name, input)
    | _ => none

/-- The `(tool_use_id, content)` of each tool-result block of `bs`
(the `toolResultBlocks` group; the `is_error` flag is never read). -/
def toolResultBlocksOf (bs : List ClaudeBlock) :
    List (String × Sum String (List String)) :=
  bs.filterMap fun b =>
    match b with
    | ClaudeBlock.toolResult id content _ => some (id, content)
    | _ => none

/-- Does the request translator's block grouping keep this block kind
(text, tool-use or tool-result)?  All other kinds are dropped. -/
def isConvertedBlock : ClaudeBlock → Bool
  | ClaudeBlock.text _ => true
  | ClaudeBlock.toolUse _ _ _ => true
  | ClaudeBlock.toolResult _ _ _ => true
  | _ => false

/-- JS `join('\n')`. -/
def joinNl (ts : List String) : String := String.intercalate "\n" ts

/-- JS `s || null` on a string: `""` is falsy. -/
def jsOrNull (s : String) : Option String :=
  if s = "" then none else some s

/-- One backend tool-call entry built from a tool-use block:
`{id, function:{name, arguments: JSON.stringify(input)}}`. -/
def mkToolCallEntry (b : String × String × Js) : OpenAIToolCall :=
  { id := b.1, name := b.2.1, arguments := jsonStringify b.2.2 }

/-- Flatten a tool-result's content: a string passes through, a block list
is flattened by joining block texts with newlines. -/
def flattenResultContent : Sum String (List String) → String
  | Sum.inl s => s
  | Sum.inr ts => joinNl ts

/-- Translation of `BaseProvider.convertClaudeMessageToOpenAI` (`src/providers/base.ts`,
lines 110-188): translate one client message into zero or more backend
messages.  String content passes through with the same role.  For
block-structured content: an assistant message becomes one backend
assistant message (joined text `|| null` as content when tool calls are
attached, `textContent || ''` otherwise); a user message becomes one
backend `tool` message per tool-result block followed by one backend
`user` message when any text blocks exist.  Any other role yields no
messages (unreachable for well-typed input). -/
def convertClaudeMessageToOpenAI (msg : ClaudeMessage) : List OpenAIMessage :=
  match msg.content with
  | ClaudeMsgContent.str s =>
    [{ role := msg.role, content := some s, tool_calls := none, tool_call_id := none }]
  | ClaudeMsgContent.blocks bs =>
    let textBlocks := textBlocksOf bs
    let toolUseBlocks := toolUseBlocksOf bs
    let toolResultBlocks := toolResultBlocksOf bs
    if msg.role = "assistant" then
      let textContent : Option String := jsOrNull (joinNl textBlocks)
      if toolUseBlocks.isEmpty then
        [{ role := "assistant", content := some (textContent.getD ""),
           tool_calls := none, tool_call_id := none }]
      else
        [{ role := "assistant", content := textContent,
           tool_calls := some (toolUseBlocks.map mkToolCallEntry),
           tool_call_id := none }]
    else if msg.role = "user" then
      (toolResultBlocks.map fun tr =>
        { role := "tool", content := some (flattenResultContent tr.2),
          tool_calls := none, tool_call_id := some tr.1 })
      ++ (if textBlocks.isEmpty then []
          else [{ role := "user", content := some (joinNl textBlocks),
                  tool_calls := none, tool_call_id := none }])
    else []

/-! ## Non-streaming response translation (`src/providers/base.ts`,
`convertOpenAIToClaude` lines 228-276, `mapFinishReason` lines 278-291) -/

/-- A tool call of a backend response choice (`function` wrapper dropped). -/
structure RespToolCall where
  id : String
  name : String
  arguments : String
deriving Repr, DecidableEq

/-- The `message` of a backend response choice. -/
structure RespMessage where
  content : Option String
  tool_calls : Option (List RespToolCall)
deriving Repr, DecidableEq

/-- One backend response choice. -/
structure RespChoice where
  message : RespMessage
  finish_reason : Option String
deriving Repr, DecidableEq

/-- Backend usage counts. -/
structure RespUsage where
  prompt_tokens : Nat
  completion_tokens : Nat
deriving Repr, DecidableEq

/-- A backend non-streaming response (`OpenAIResponse`); `usage` may be
absent (`response.usage?.`). -/
structure OpenAIResponse where
  id : String
  choices : List RespChoice
  usage : Option RespUsage
deriving Repr, DecidableEq

/-- A content block of a client response. -/
inductive ClaudeRespBlock where
  | text (t : String)
  | toolUse (id name : String) (input : Js)
deriving Repr

/-- Client usage counts. -/
structure ClaudeUsage where
  input_tokens : Nat
  output_tokens : Nat
deriving Repr, DecidableEq

/-- A client response (`ClaudeResponse`); the constant `type:'message'`
and `role:'assistant'` fields are omitted. -/
structure ClaudeResponse where
  id : String
  content : List ClaudeRespBlock
  model : String
  stop_reason : String
  stop_sequence : Option String
  usage : ClaudeUsage
deriving Repr

/-- Translation of `BaseProvider.mapFinishReason`: closed finish-reason table, defaulting
to `end_turn` for anything unrecognized, `null` included. -/
def mapFinishReason (reason : Option String) : String :=
  match reason with
  | some "stop" => "end_turn"
  | some "length" => "max_tokens"
  | some "content_filter" => "stop_sequence"
  | some "tool_calls" => "tool_use"
  | _ => "end_turn"

/-- Convert backend tool calls to tool-use blocks:
`input: JSON.parse(toolCall.function.arguments || '{}')` — the empty
string falls back to `'{}'`; a parse failure propagates (JS throw). -/
def convertToolCalls : List RespToolCall → Except String (List ClaudeRespBlock)
  | [] => Except.ok []
  | tc :: rest =>
    match jsonParse (if tc.arguments = "" then "\x7b\x7d" else tc.arguments) with
    | Except.error m => Except.error m
    | Except.ok v =>
      match convertToolCalls rest with
      | Except.error m => Except.error m
      | Except.ok bs => Except.ok (ClaudeRespBlock.toolUse tc.id tc.name v :: bs)

/-- The structured input the translator decodes for one tool call when
the decode succeeds: the parse of `arguments || '{}'` (so the empty
string yields the empty object).  Used to state what a successful
translation carries; `convertToolCalls` itself still propagates a parse
failure. -/
def decodedInput (tc : RespToolCall) : Js :=
  match jsonParse (if tc.arguments = "" then "\x7b\x7d" else tc.arguments) with
  | Except.ok v => v
  | Except.error _ => Js.obj []

/-- The text block contributed by a choice:
`if (choice?.message?.content)` pushes one text block (truthy check). -/
def textPartOf (c : RespChoice) : List ClaudeRespBlock :=
  match c.message.content with
  | some t => if t = "" then [] else [ClaudeRespBlock.text t]
  | none => []

/-- The tool-use blocks contributed by a choice:
`if (choice?.message?.tool_calls && ...length > 0)` converts each. -/
def toolPartOf (c : RespChoice) : Except String (List ClaudeRespBlock) :=
  match c.message.tool_calls with
  | some tcs => if tcs.isEmpty then Except.ok [] else convertToolCalls tcs
  | none => Except.ok []

/-- Translation of `BaseProvider.convertOpenAIToClaude`: translate a completed backend
response into the client response shape.  Takes the first choice; emits a
text block if its content is truthy, then one tool-use block per tool
call; falls back to a single empty text block; echoes `originalModel`
(call sites pass the client-requested `request.model`, never the resolved
backend name); copies usage counts with `|| 0` defaults.  The result is
`Except` because `JSON.parse` can throw. -/
def convertOpenAIToClaude (resp : OpenAIResponse) (originalModel : String) :
    Except String ClaudeResponse :=
  let choice := resp.choices.head?
  let textPart : List ClaudeRespBlock :=
    match choice with
    | some c => textPartOf c
    | none => []
  let toolCallsRes : Except String (List ClaudeRespBlock) :=
    match choice with
    | some c => toolPartOf c
    | none => Except.ok []
  match toolCallsRes with
  | Except.error m => Except.error m
  | Except.ok toolPart =>
    let content := textPart ++ toolPart
    let content := if content.isEmpty then [ClaudeRespBlock.text ""] else content
    Except.ok
      { id := "msg_" ++ resp.id,
        content := content,
        model := originalModel,
        stop_reason := mapFinishReason (choice.bind (fun c => c.finish_reason)),
        stop_sequence := none,
        usage :=
          { input_tokens :=
              match resp.usage with
              | some u => u.prompt_tokens
              | none => 0,
            output_tokens :=
              match resp.usage with
              | some u => u.completion_tokens
              | none => 0 } }

/-! ## Model readiness orchestrator (`src/providers/ollama.ts`,
`ensureModelReady` lines 111-130)

The network effects of `isModelAvailable` / `pullModel` / `loadModel` are
abstracted into an environment of outcomes; the orchestrator's own control
flow (attempted-set fast path, availability check, pull with hard failure,
warm-up with ignored result) is translated directly.  The per-process
`modelLoadAttempted` set is the explicit state. -/

/-- Outcomes of the backend-facing probes for each model name. -/
structure ReadyEnv where
  available : String → Bool
  pullOk : String → Bool

/-- The externally visible steps `ensureModelReady` can perform. -/
inductive ReadyAction where
  | checkAvailable (m : String)
  | pullModel (m : String)
  | loadModel (m : String)
deriving Repr, DecidableEq

/-- The provider's persistent per-process state: the attempted-name set
(`modelLoadAttempted`, insertion order kept). -/
structure OllamaState where
  modelLoadAttempted : List String
deriving Repr, DecidableEq

/-- Translation of `OllamaProvider.ensureModelReady`: fast-path return when the name was
already attempted; otherwise record the name, check availability, pull if
missing (failing hard when the pull fails), then warm the model up
ignoring the warm-up's result.  Returns the new state, the actions
performed, and success or the thrown error. -/
def ensureModelReady (env : ReadyEnv) (st : OllamaState) (modelName : String) :
    OllamaState × List ReadyAction × Except String Unit :=
  if modelName ∈ st.modelLoadAttempted then (st, [], Except.ok ())
  else
    let st1 : OllamaState := ⟨st.modelLoadAttempted ++ [modelName]⟩
    if env.available modelName then
      (st1, [ReadyAction.checkAvailable modelName, ReadyAction.loadModel modelName],
       Except.ok ())
    else if env.pullOk modelName then
      (st1, [ReadyAction.checkAvailable modelName, ReadyAction.pullModel modelName,
             ReadyAction.loadModel modelName], Except.ok ())
    else
      (st1, [ReadyAction.checkAvailable modelName, ReadyAction.pullModel modelName],
       Except.error ("Failed to pull model " ++ modelName))

/-! ## Streaming relay state machine

`OllamaProvider.stream` (`src/providers/ollama.ts`, lines 157-383) and
`LMStudioProvider.stream` (`src/providers/lmstudio.ts`, lines 100-326)
contain the same relay: the per-chunk handler (ollama lines 218-297) and
the end-of-stream flush (ollama lines 299-369) are line-for-line identical
in the two providers, so one embedding covers both.  A backend chunk is
modelled after JSON / SSE-line reassembly (malformed chunks are skipped by
the source and contribute nothing); the fields are those of
`OpenAIStreamChunk` read through `choices[0]`.  JS truthiness is explicit
throughout, and the nondeterministic `Date.now()` used in generated tool
ids is a parameter `now`. -/

/-- One accumulating tool call (`StreamingToolCall`). -/
structure StreamingToolCall where
  id : String
  name : String
  arguments : String
deriving Repr, DecidableEq

/-- One backend tool-call delta fragment (`OpenAIStreamToolCall`):
a slot index plus optional id, function name and argument fragment. -/
structure ToolCallDelta where
  index : Nat
  id : Option String
  fname : Option String
  fargs : Option String
deriving Repr, DecidableEq

/-- One reassembled backend stream chunk, read through `choices[0]`:
optional content fragment, optional tool-call delta list, optional finish
reason, and the optional `usage.prompt_tokens`. -/
structure StreamChunk where
  content : Option String
  tool_calls : Option (List ToolCallDelta)
  finish_reason : Option String
  usage_prompt_tokens : Option Nat
deriving Repr, DecidableEq

/-- The opening payload of a `content_block_start` event. -/
inductive ContentBlockInit where
  | text (t : String)
  | toolUse (id name : String)
deriving Repr, DecidableEq

/-- The payload of a `content_block_delta` event. -/
inductive DeltaPayload where
  | textDelta (t : String)
  | inputJsonDelta (s : String)
deriving Repr, DecidableEq

/-- A client-side SSE event emitted by the relay. -/
inductive Event where
  | messageStart (id : String) (model : String)
  | blockStart (index : Nat) (block : ContentBlockInit)
  | blockDelta (index : Nat) (delta : DeltaPayload)
  | blockStop (index : Nat)
  | messageDelta (stopReason : String) (outputTokens : Nat)
  | messageStop
deriving Repr, DecidableEq

/-- The relay session state (the provider's local mutable variables). -/
structure RelayState where
  hasStartedTextBlock : Bool
  currentBlockIndex : Nat
  outputTokens : Nat
  inputTokens : Nat
  finishReason : String
  toolCalls : List (Nat × StreamingToolCall)
  hasToolCalls : Bool
deriving Repr, DecidableEq

/-- Initial relay session state. -/
def initRelayState : RelayState :=
  { hasStartedTextBlock := false, currentBlockIndex := 0, outputTokens := 0,
    inputTokens := 0, finishReason := "end_turn", toolCalls := [],
    hasToolCalls := false }

/-- Lookup `toolCalls.get(index)` on the insertion-ordered map. -/
def lookupTC (m : List (Nat × StreamingToolCall)) (k : Nat) :
    Option StreamingToolCall :=
  (m.find? (fun p => p.1 == k)).map (fun p => p.2)

/-- Insertion `toolCalls.set(index, tc)` for a fresh key: appended at the end
(JS `Map` iterates in insertion order). -/
def insertTC (m : List (Nat × StreamingToolCall)) (k : Nat)
    (tc : StreamingToolCall) : List (Nat × StreamingToolCall) :=
  m ++ [(k, tc)]

/-- Update `toolCalls.set(index, tc)` for an existing key: in place. -/
def updateTC (m : List (Nat × StreamingToolCall)) (k : Nat)
    (tc : StreamingToolCall) : List (Nat × StreamingToolCall) :=
  m.map (fun p => if p.1 == k then (k, tc) else p)

/-- The generated tool-call id `toolu_${Date.now()}_${tcIndex}`. -/
def genId (now idx : Nat) : String :=
  "toolu_" ++ toString now ++ "_" ++ toString idx

/-- The accumulator allocated for a first-seen slot:
`{id: delta.id || generated, name: delta.function?.name || '', arguments: ''}`. -/
def freshSTC (now : Nat) (d : ToolCallDelta) : StreamingToolCall :=
  { id :=
      match d.id with
      | some i => if i = "" then genId now d.index else i
      | none => genId now d.index,
    name := (d.fname.getD ""),
    arguments := "" }

/-- Line `if (toolCallDelta.id) tc.id = toolCallDelta.id`: overwrite the id
when the fragment carries a truthy one. -/
def updId (tc : StreamingToolCall) (d : ToolCallDelta) : StreamingToolCall :=
  match d.id with
  | some i => if i = "" then tc else { tc with id := i }
  | none => tc

/-- Line `if (toolCallDelta.function?.name) tc.name = ...`: overwrite the name
when the fragment carries a truthy one. -/
def updName (tc : StreamingToolCall) (d : ToolCallDelta) : StreamingToolCall :=
  match d.fname with
  | some n => if n = "" then tc else { tc with name := n }
  | none => tc

/-- Line `if (toolCallDelta.function?.arguments) tc.arguments += ...`: append a
truthy argument fragment. -/
def updArgs (tc : StreamingToolCall) (d : ToolCallDelta) : StreamingToolCall :=
  match d.fargs with
  | some a => if a = "" then tc else { tc with arguments := tc.arguments ++ a }
  | none => tc

/-- Merge one delta fragment into an accumulator: the three sequential
updates of the source (id, name, argument fragment). -/
def updSTC (tc : StreamingToolCall) (d : ToolCallDelta) : StreamingToolCall :=
  updArgs (updName (updId tc d) d) d

/-- Process one tool-call delta fragment against the slot map: allocate a
fresh accumulator if the slot is unseen, then merge the fragment in. -/
def applyToolDelta (now : Nat) (m : List (Nat × StreamingToolCall))
    (d : ToolCallDelta) : List (Nat × StreamingToolCall) :=
  let m1 := if (lookupTC m d.index).isNone then insertTC m d.index (freshSTC now d) else m
  match lookupTC m1 d.index with
  | some tc => updateTC m1 d.index (updSTC tc d)
  | none => m1

/-- The truthy text fragment of a chunk (`if (content)`):
absent, `null` and `""` all yield nothing. -/
def textFragOf (c : StreamChunk) : Option String :=
  match c.content with
  | some t => if t = "" then none else some t
  | none => none

/-- The tool-call delta fragments of a chunk (absent list is empty). -/
def toolDeltasOf (c : StreamChunk) : List ToolCallDelta :=
  match c.tool_calls with
  | some ds => ds
  | none => []

/-- The `if (content)` stage of the per-chunk handler: on a truthy text
fragment, open the text block at the current index if not yet open,
count one output token, and emit the text delta. -/
def textStage (s : RelayState) (c : StreamChunk) : RelayState × List Event :=
  match textFragOf c with
  | some t =>
    let opened : RelayState × List Event :=
      if s.hasStartedTextBlock then (s, [])
      else ({ s with hasStartedTextBlock := true },
            [Event.blockStart s.currentBlockIndex (ContentBlockInit.text "")])
    ({ opened.1 with outputTokens := opened.1.outputTokens + 1 },
     opened.2 ++ [Event.blockDelta opened.1.currentBlockIndex (DeltaPayload.textDelta t)])
  | none => (s, [])

/-- The `if (deltaToolCalls && deltaToolCalls.length > 0)` stage: set the
tool-call flag and fold every fragment into the slot map. -/
def toolStage (now : Nat) (s : RelayState) (c : StreamChunk) : RelayState :=
  if (toolDeltasOf c).isEmpty then s
  else { s with hasToolCalls := true,
                toolCalls := (toolDeltasOf c).foldl (applyToolDelta now) s.toolCalls }

/-- The `if (choice?.finish_reason)` stage: store the remapped truthy
finish reason (last write wins). -/
def finishStage (s : RelayState) (c : StreamChunk) : RelayState :=
  match c.finish_reason with
  | some r => if r = "" then s else { s with finishReason := mapFinishReason (some r) }
  | none => s

/-- The `if (parsed.usage)` stage: store a truthy prompt-token count. -/
def usageStage (s : RelayState) (c : StreamChunk) : RelayState :=
  match c.usage_prompt_tokens with
  | some p => if p = 0 then s else { s with inputTokens := p }
  | none => s

/-- Process one reassembled chunk: the four stages of the `'data'` handler
in source order (text, tool-call deltas, finish reason, usage). -/
def processChunk (now : Nat) (s : RelayState) (c : StreamChunk) :
    RelayState × List Event :=
  let stage1 := textStage s c
  (usageStage (finishStage (toolStage now stage1.1 c) c) c, stage1.2)

/-- Process a whole chunk sequence, concatenating emitted events. -/
def processChunks (now : Nat) (s : RelayState) :
    List StreamChunk → RelayState × List Event
  | [] => (s, [])
  | c :: cs =>
    let r1 := processChunk now s c
    let r2 := processChunks now r1.1 cs
    (r2.1, r1.2 ++ r2.2)

/-- The end-of-stream tool-use block emission: for each accumulated slot in
insertion order, a `content_block_start`, one `input_json_delta` carrying
the accumulated arguments when non-empty, and a `content_block_stop`,
advancing the index each time. -/
def toolFlush (idx : Nat) : List (Nat × StreamingToolCall) → List Event
  | [] => []
  | (_, tc) :: rest =>
    (Event.blockStart idx (ContentBlockInit.toolUse tc.id tc.name)
      :: (if tc.arguments = "" then []
          else [Event.blockDelta idx (DeltaPayload.inputJsonDelta tc.arguments)]))
    ++ (Event.blockStop idx :: toolFlush (idx + 1) rest)

/-- The `upstream.on('end', ...)` handler: close the open text block,
materialize the tool-use blocks, fall back to one empty text block when
neither text nor tool calls were ever produced, then emit `message_delta`
and `message_stop`. -/
def flushEnd (s : RelayState) : List Event :=
  let stopText : List Event :=
    if s.hasStartedTextBlock then [Event.blockStop s.currentBlockIndex] else []
  let idx1 : Nat :=
    if s.hasStartedTextBlock then s.currentBlockIndex + 1 else s.currentBlockIndex
  let toolEvs : List Event := if s.hasToolCalls then toolFlush idx1 s.toolCalls else []
  let emptyEvs : List Event :=
    if !s.hasStartedTextBlock && !s.hasToolCalls then
      [Event.blockStart 0 (ContentBlockInit.text ""), Event.blockStop 0]
    else []
  stopText ++ toolEvs ++ emptyEvs
    ++ [Event.messageDelta s.finishReason s.outputTokens, Event.messageStop]

/-- One whole streaming session: the immediate `message_start` (with the
synthesized message id and the original requested model), the per-chunk
events, then the end-of-stream flush. -/
def runStream (now : Nat) (msgId model : String) (cs : List StreamChunk) :
    List Event :=
  let r := processChunks now initRelayState cs
  Event.messageStart msgId model :: (r.2 ++ flushEnd r.1)

/-! ### Derived observations on streaming sessions (used by the claims) -/

/-- The truthy text fragments of a session, in arrival order. -/
def textsOf (cs : List StreamChunk) : List String := cs.filterMap textFragOf

/-- All tool-call delta fragments of a session, in arrival order. -/
def allDeltas (cs : List StreamChunk) : List ToolCallDelta :=
  (cs.map toolDeltasOf).flatten

/-- The delta fragments addressed to slot `k`. -/
def deltasFor (k : Nat) (ds : List ToolCallDelta) : List ToolCallDelta :=
  ds.filter (fun d => d.index == k)

/-- The argument fragments addressed to slot `k`, in arrival order
(an absent fragment contributes the empty string). -/
def argFragsFor (k : Nat) (cs : List StreamChunk) : List String :=
  (deltasFor k (allDeltas cs)).map (fun d => d.fargs.getD "")

/-- Indices carried by `content_block_start` events, in order. -/
def startIndices (evs : List Event) : List Nat :=
  evs.filterMap fun e =>
    match e with
    | Event.blockStart i _ => some i
    | _ => none

/-- Indices carried by `content_block_stop` events, in order. -/
def stopIndices (evs : List Event) : List Nat :=
  evs.filterMap fun e =>
    match e with
    | Event.blockStop i => some i
    | _ => none

/-- Is this one of the three per-block event kinds? -/
def isBlockEvent : Event → Bool
  | Event.blockStart _ _ => true
  | Event.blockDelta _ _ => true
  | Event.blockStop _ => true
  | _ => false

/-- The per-block event subsequence of a session. -/
def blockEventsOf (evs : List Event) : List Event := evs.filter isBlockEvent

/-- The canonical well-nested block-event sequence: block `i` contributes
`content_block_start i`, its deltas at index `i`, then
`content_block_stop i`, with indices assigned contiguously from the
starting index. -/
def flattenBlocks (i : Nat) : List (ContentBlockInit × List DeltaPayload) → List Event
  | [] => []
  | (b, ds) :: rest =>
    Event.blockStart i b :: (ds.map (Event.blockDelta i) ++ (Event.blockStop i :: flattenBlocks (i + 1) rest))

/-- The canonical block contributed by one accumulated tool call: a
tool-use opener and its single JSON-input delta (absent when the
accumulated argument string is empty). -/
def toolBlockShape (p : Nat × StreamingToolCall) :
    ContentBlockInit × List DeltaPayload :=
  (ContentBlockInit.toolUse p.2.id p.2.name,
   if p.2.arguments = "" then [] else [DeltaPayload.inputJsonDelta p.2.arguments])

/-- Is this a tool-use `content_block_start` at index `i`? -/
def isToolStartAt (i : Nat) : Event → Bool
  | Event.blockStart j (ContentBlockInit.toolUse _ _) => j == i
  | _ => false

/-- Is this an `input_json_delta` at index `i`? -/
def isInputJsonDeltaAt (i : Nat) : Event → Bool
  | Event.blockDelta j (DeltaPayload.inputJsonDelta _) => j == i
  | _ => false

/-- Is this a tool-use block event (tool-use start or JSON input delta)? -/
def isToolEvent : Event → Bool
  | Event.blockStart _ (ContentBlockInit.toolUse _ _) => true
  | Event.blockDelta _ (DeltaPayload.inputJsonDelta _) => true
  | _ => false

/-- The per-chunk text events the relay emits before stream end, given
whether a text block was already open: a `content_block_start` at index 0
when the first truthy fragment arrives, then one text delta per fragment. -/
def startTextEvents (started : Bool) (ts : List String) : List Event :=
  match started, ts with
  | _, [] => []
  | true, ts => ts.map fun t => Event.blockDelta 0 (DeltaPayload.textDelta t)
  | false, ts =>
    Event.blockStart 0 (ContentBlockInit.text "")
      :: ts.map fun t => Event.blockDelta 0 (DeltaPayload.textDelta t)

/-- The effect of one delta fragment on one slot's view of the map:
a fresh accumulator is allocated when the slot is unseen, then the
fragment is merged in. -/
def accumSlot (now : Nat) (o : Option StreamingToolCall) (d : ToolCallDelta) :
    Option StreamingToolCall :=
  some (updSTC (o.getD (freshSTC now d)) d)

/-- Per-chunk evolution of the stored finish reason (truthy, last wins). -/
def finishFold (fr : String) (c : StreamChunk) : String :=
  match c.finish_reason with
  | some r => if r = "" then fr else mapFinishReason (some r)
  | none => fr

/-- Per-chunk evolution of the stored prompt-token count (truthy kept). -/
def usageFold (u : Nat) (c : StreamChunk) : Nat :=
  match c.usage_prompt_tokens with
  | some p => if p = 0 then u else p
  | none => u

/-! # Theorems -/

/-! ## Helper lemmas: request-translator block grouping -/

theorem textBlocksOf_filterConverted (bs : List ClaudeBlock) :
    textBlocksOf (bs.filter isConvertedBlock) = textBlocksOf bs := by
  induction bs with
  | nil => rfl
  | cons b bs ih => cases b <;> simp [textBlocksOf, isConvertedBlock, List.filter_cons] <;>
      simpa [textBlocksOf] using ih

theorem toolUseBlocksOf_filterConverted (bs : List ClaudeBlock) :
    toolUseBlocksOf (bs.filter isConvertedBlock) = toolUseBlocksOf bs := by
  induction bs with
  | nil => rfl
  | cons b bs ih => cases b <;> simp [toolUseBlocksOf, isConvertedBlock, List.filter_cons] <;>
      simpa [toolUseBlocksOf] using ih

theorem toolResultBlocksOf_filterConverted (bs : List ClaudeBlock) :
    toolResultBlocksOf (bs.filter isConvertedBlock) = toolResultBlocksOf bs := by
  induction bs with
  | nil => rfl
  | cons b bs ih => cases b <;> simp [toolResultBlocksOf, isConvertedBlock, List.filter_cons] <;>
      simpa [toolResultBlocksOf] using ih

/-! ## C9 — readiness orchestrator is idempotent per model name -/

/-- C9: for every environment of probe outcomes, state and model name,
a second invocation of `ensureModelReady` for the same name is a no-op:
it performs no actions, returns success immediately, and leaves the
attempted-set unchanged — regardless of whether the first invocation
succeeded or failed. -/
theorem claim9_ensure_ready_idempotent (env : ReadyEnv) (st : OllamaState)
    (m : String) :
    ensureModelReady env (ensureModelReady env st m).1 m =
      ((ensureModelReady env st m).1, [], Except.ok ()) := by
  have hmem : m ∈ (ensureModelReady env st m).1.modelLoadAttempted := by
    unfold ensureModelReady
    by_cases h : m ∈ st.modelLoadAttempted
    · simp only [if_pos h]
      exact h
    · by_cases ha : env.available m <;> by_cases hp : env.pullOk m <;> simp [h, ha, hp]
  set Y := ensureModelReady env st m with hY
  show ensureModelReady env Y.1 m = (Y.1, [], Except.ok ())
  unfold ensureModelReady
  rw [if_pos hmem]

/-! ## C3 — model routing: exact match versus truthiness -/

/-- C3 counterexample: with routing table `[("a","x"), ("ab","")]` the
requested name `"ab"` is exactly a key, yet `resolveModel` does not
return that key's mapped value (the empty string is falsy in the JS
truthiness test), falling through to the prefix match `"a" ↦ "x"`,
while the spec-side rule returns the exact value. -/
theorem claim3_counterexample :
    List.lookup "ab" [("a", "x"), ("ab", "")] = some "" ∧
    resolveModel [("a", "x"), ("ab", "")] "dflt" "ab" = "x" ∧
    resolveModelSpec [("a", "x"), ("ab", "")] "dflt" "ab" = "" ∧
    ("x" : String) ≠ "" := by
  refine ⟨by decide, by decide, by decide, by decide⟩

/-- C3 (amended): provided the requested name's exact routing entry, if
any, does not map to the empty string, `resolveModel` follows the spec's
rule exactly: an exact match takes precedence over any prefix match, then
the first prefix match in defined order, then the configured default
model; it always returns a value. -/
theorem claim3_exact_match_precedence (routing : List (String × String))
    (d req : String) (h : List.lookup req routing ≠ some "") :
    resolveModel routing d req = resolveModelSpec routing d req := by
  unfold resolveModel resolveModelSpec
  cases hl : List.lookup req routing with
  | none => rfl
  | some v =>
    have hv : ¬(v = "") := fun hv => h (by rw [hl, hv])
    simp [hv]

/-- C3 witness: the amended theorem applied at a concrete routing table,
where `"claude-3-opus"` is both an exact key and extends the shorter
key `"claude-3"`. -/
theorem claim3_exact_match_precedence_witness :
    resolveModel [("claude-3", "g"), ("claude-3-opus", "llama3:70b")] "d" "claude-3-opus" =
      resolveModelSpec [("claude-3", "g"), ("claude-3-opus", "llama3:70b")] "d" "claude-3-opus" :=
  claim3_exact_match_precedence _ "d" "claude-3-opus" (by decide)

/-! ## C6 — tool results precede user text -/

/-- C6: a block-structured user message with at least one tool-result
block and at least one text block translates to one backend `tool`
message per tool-result block (block-structured result content flattened
by joining block texts), all strictly before the single backend `user`
message carrying the newline-joined text blocks. -/
theorem claim6_tool_results_before_user_text (bs : List ClaudeBlock)
    (h1 : textBlocksOf bs ≠ []) (_h2 : toolResultBlocksOf bs ≠ []) :
    convertClaudeMessageToOpenAI ⟨"user", ClaudeMsgContent.blocks bs⟩ =
      (toolResultBlocksOf bs).map (fun tr =>
        { role := "tool", content := some (flattenResultContent tr.2),
          tool_calls := none, tool_call_id := some tr.1 })
      ++ [{ role := "user", content := some (joinNl (textBlocksOf bs)),
            tool_calls := none, tool_call_id := none }] := by
  unfold convertClaudeMessageToOpenAI
  simp [h1]

/-- C6 witness: a user message carrying one tool-result block then one
text block becomes a `tool` message followed by a `user` message. -/
theorem claim6_witness :
    convertClaudeMessageToOpenAI
      ⟨"user", ClaudeMsgContent.blocks
        [ClaudeBlock.toolResult "tu1" (Sum.inl "42") none, ClaudeBlock.text "ok"]⟩ =
      [{ role := "tool", content := some "42", tool_calls := none, tool_call_id := some "tu1" },
       { role := "user", content := some "ok", tool_calls := none, tool_call_id := none }] :=
  claim6_tool_results_before_user_text _ (by decide) (by simp [toolResultBlocksOf])

/-! ## C7 — assistant message translation -/

/-- C7 counterexample: (a) an assistant message with no text blocks and
no tool-use blocks translates with content `""`, not `null` as the claim
states; (b) with a tool-use block and an (empty) text block, the joined
text `""` is replaced by `null` rather than kept as content. -/
theorem claim7_counterexample :
    convertClaudeMessageToOpenAI ⟨"assistant", ClaudeMsgContent.blocks []⟩ =
      [{ role := "assistant", content := some "", tool_calls := none, tool_call_id := none }] ∧
    convertClaudeMessageToOpenAI ⟨"assistant", ClaudeMsgContent.blocks []⟩ ≠
      [{ role := "assistant", content := none, tool_calls := none, tool_call_id := none }] ∧
    convertClaudeMessageToOpenAI
        ⟨"assistant", ClaudeMsgContent.blocks
          [ClaudeBlock.text "", ClaudeBlock.toolUse "t1" "f" (Js.obj [])]⟩ =
      [{ role := "assistant", content := none,
         tool_calls := some [{ id := "t1", name := "f", arguments := "\x7b\x7d" }],
         tool_call_id := none }] := by
  refine ⟨by decide, by decide, by decide⟩

/-- C7 (amended): a block-structured assistant message yields exactly one
backend assistant message; tool-call entries (id, name, JSON-serialized
input) are attached exactly when tool-use blocks exist; the content is
the newline-joined text when that join is non-empty, and otherwise `null`
if tool calls are attached but the empty string if not. -/
theorem claim7_assistant_translation (bs : List ClaudeBlock) :
    ∃ m : OpenAIMessage,
      convertClaudeMessageToOpenAI ⟨"assistant", ClaudeMsgContent.blocks bs⟩ = [m] ∧
      m.role = "assistant" ∧
      m.tool_calls = (if (toolUseBlocksOf bs).isEmpty then none
                      else some ((toolUseBlocksOf bs).map mkToolCallEntry)) ∧
      m.content = (if joinNl (textBlocksOf bs) = "" then
                    (if (toolUseBlocksOf bs).isEmpty then some "" else none)
                   else some (joinNl (textBlocksOf bs))) := by
  unfold convertClaudeMessageToOpenAI
  by_cases hu : (toolUseBlocksOf bs).isEmpty <;>
    by_cases hj : joinNl (textBlocksOf bs) = "" <;>
      simp [hu, hj, jsOrNull]

/-! ## C10 — non-translatable blocks contribute nothing -/

/-- C10: blocks other than text, tool-use and tool-result contribute
nothing to the backend request (filtering them away does not change the
translation), and a block-structured user message containing no text
block and no tool-result block translates to zero backend messages. -/
theorem claim10_irrelevant_blocks_dropped (role : String) (bs : List ClaudeBlock) :
    convertClaudeMessageToOpenAI ⟨role, ClaudeMsgContent.blocks bs⟩ =
      convertClaudeMessageToOpenAI ⟨role, ClaudeMsgContent.blocks (bs.filter isConvertedBlock)⟩ ∧
    (role = "user" → textBlocksOf bs = [] → toolResultBlocksOf bs = [] →
      convertClaudeMessageToOpenAI ⟨role, ClaudeMsgContent.blocks bs⟩ = []) := by
  constructor
  · unfold convertClaudeMessageToOpenAI
    dsimp only
    rw [textBlocksOf_filterConverted, toolUseBlocksOf_filterConverted,
        toolResultBlocksOf_filterConverted]
  · intro hr h1 h2
    subst hr
    unfold convertClaudeMessageToOpenAI
    simp [h1, h2]

/-- C10 witness: a user message holding only an image and a thinking
block is silently dropped from the backend payload. -/
theorem claim10_witness :
    convertClaudeMessageToOpenAI
      ⟨"user", ClaudeMsgContent.blocks
        [ClaudeBlock.image "img", ClaudeBlock.thinking "t" "sig"]⟩ = [] :=
  (claim10_irrelevant_blocks_dropped "user" _).2 rfl rfl rfl

/-! ## Helper lemmas: backend tool-call decoding -/

theorem decodedInput_of_empty (tc : RespToolCall) (h : tc.arguments = "") :
    decodedInput tc = Js.obj [] := by
  unfold decodedInput
  rw [if_pos h]
  rfl

theorem decodedInput_of_ok (tc : RespToolCall) (v : Js)
    (h : jsonParse tc.arguments = Except.ok v) : decodedInput tc = v := by
  unfold decodedInput
  by_cases harg : tc.arguments = ""
  · rw [harg] at h
    have hempty : jsonParse "" = Except.error "unexpected end of input" := rfl
    rw [hempty] at h
    exact Except.noConfusion h
  · rw [if_neg harg, h]

theorem jsonParse_args_ok (tc : RespToolCall)
    (h : tc.arguments = "" ∨ (jsonParse tc.arguments).isOk = true) :
    jsonParse (if tc.arguments = "" then "\x7b\x7d" else tc.arguments) =
      Except.ok (decodedInput tc) := by
  by_cases harg : tc.arguments = ""
  · rw [if_pos harg, decodedInput_of_empty tc harg]
    rfl
  · rw [if_neg harg]
    rcases h with h | h
    · exact absurd h harg
    · cases hp : jsonParse tc.arguments with
      | error m => rw [hp] at h; exact absurd h (by simp [Except.isOk, Except.toBool])
      | ok v => rw [decodedInput_of_ok tc v hp]

theorem convertToolCalls_decoded (tcs : List RespToolCall)
    (h : ∀ tc ∈ tcs, tc.arguments = "" ∨ (jsonParse tc.arguments).isOk = true) :
    convertToolCalls tcs =
      Except.ok (tcs.map fun tc =>
        ClaudeRespBlock.toolUse tc.id tc.name (decodedInput tc)) := by
  induction tcs with
  | nil => rfl
  | cons tc rest ih =>
    have hhead := jsonParse_args_ok tc (h tc (List.mem_cons_self tc rest))
    have hrest := ih (fun x hx => h x (List.mem_cons_of_mem tc hx))
    unfold convertToolCalls
    rw [hhead, hrest]
    simp

theorem convertToolCalls_bad_arg (tcs : List RespToolCall)
    (h : ∃ tc ∈ tcs, tc.arguments ≠ "" ∧ (jsonParse tc.arguments).isOk = false) :
    (convertToolCalls tcs).isOk = false := by
  induction tcs with
  | nil => exact absurd h (by simp)
  | cons tc rest ih =>
    unfold convertToolCalls
    rcases h with ⟨bad, hmem, hne, hbad⟩
    rcases List.mem_cons.mp hmem with heq | hmem'
    · subst heq
      rw [if_neg hne]
      cases hp : jsonParse bad.arguments with
      | error m => rfl
      | ok v => rw [hp] at hbad; exact absurd hbad (by simp [Except.isOk, Except.toBool])
    · cases hp : jsonParse (if tc.arguments = "" then "\x7b\x7d" else tc.arguments) with
      | error m => rfl
      | ok v =>
        have hrest := ih ⟨bad, hmem', hne, hbad⟩
        cases hr : convertToolCalls rest with
        | error m => rfl
        | ok bs => rw [hr] at hrest; exact absurd hrest (by simp [Except.isOk, Except.toBool])

/-! ## C4 — non-streaming happy path -/

/-- C4: a backend response whose first choice carries truthy text content,
finish reason `"stop"` and no tool calls translates to a client response
with exactly one text block holding that text, stop reason `"end_turn"`,
usage counts copied from the backend's prompt/completion token counts
(defaulting to 0 when usage is missing), and the model field echoing the
original client-requested model name (call sites pass `request.model`),
not the resolved backend name. -/
theorem claim4_nonstreaming_happy_path (resp : OpenAIResponse) (om : String)
    (c : RespChoice) (t : String)
    (h1 : resp.choices.head? = some c)
    (h2 : c.message.content = some t) (h3 : t ≠ "")
    (h4 : c.finish_reason = some "stop")
    (h5 : c.message.tool_calls = none ∨ c.message.tool_calls = some []) :
    convertOpenAIToClaude resp om =
      Except.ok
        { id := "msg_" ++ resp.id,
          content := [ClaudeRespBlock.text t],
          model := om,
          stop_reason := "end_turn",
          stop_sequence := none,
          usage :=
            { input_tokens :=
                match resp.usage with
                | some u => u.prompt_tokens
                | none => 0,
              output_tokens :=
                match resp.usage with
                | some u => u.completion_tokens
                | none => 0 } } := by
  unfold convertOpenAIToClaude textPartOf toolPartOf
  rcases h5 with h5 | h5 <;>
    simp [h1, h2, h3, h4, h5, mapFinishReason]

/-- C4 witness: the spec's scenario — backend returns `"hello"`, finish
reason `"stop"`, usage `{prompt_tokens:5, completion_tokens:3}`; the
client sees one `"hello"` text block, `end_turn`, usage `{5, 3}` and the
originally requested model name. -/
theorem claim4_witness :
    convertOpenAIToClaude
      ⟨"abc", [⟨⟨some "hello", none⟩, some "stop"⟩], some ⟨5, 3⟩⟩
      "claude-3-5-sonnet-20241022" =
      Except.ok
        { id := "msg_abc",
          content := [ClaudeRespBlock.text "hello"],
          model := "claude-3-5-sonnet-20241022",
          stop_reason := "end_turn",
          stop_sequence := none,
          usage := { input_tokens := 5, output_tokens := 3 } } :=
  claim4_nonstreaming_happy_path _ _ _ _ rfl rfl (by decide) rfl (Or.inl rfl)

/-! ## C5 — tool-call argument decoding -/

/-- C5 counterexample: a backend tool call whose argument string is not
valid JSON (`"not json"`) makes the whole translation fail — the decode
failure propagates out of `convertOpenAIToClaude` instead of producing a
tool-use block with an empty input object as the claim states. -/
theorem claim5_counterexample :
    (convertOpenAIToClaude
        ⟨"r", [⟨⟨none, some [⟨"t1", "f", "not json"⟩]⟩, some "tool_calls"⟩], none⟩
        "m").isOk = false ∧
    (jsonParse "not json").isOk = false ∧
    ("not json" : String) ≠ "" := by
  exact ⟨rfl, rfl, by decide⟩

/-- C5 (amended): one tool-use block is emitted per backend tool call,
its input the JSON-decoded argument string: when every argument string
is either empty (decoded to the empty object via the `|| '\x7b\x7d'`
fallback) or valid JSON (decoded to its parse), the translation succeeds
and carries exactly those decoded inputs; but if any tool call has a
non-empty argument string that is not valid JSON, the translation fails
with an error — the decode failure is not caught. -/
theorem claim5_tool_argument_decoding (resp : OpenAIResponse) (om : String)
    (c : RespChoice) (tcs : List RespToolCall)
    (h1 : resp.choices.head? = some c)
    (h2 : c.message.tool_calls = some tcs) :
    ((∃ tc ∈ tcs, tc.arguments ≠ "" ∧ (jsonParse tc.arguments).isOk = false) →
      (convertOpenAIToClaude resp om).isOk = false) ∧
    ((∀ tc ∈ tcs, tc.arguments = "" ∨ (jsonParse tc.arguments).isOk = true) →
      tcs ≠ [] →
      ∃ r, convertOpenAIToClaude resp om = Except.ok r ∧
        r.content = textPartOf c ++
          tcs.map (fun tc => ClaudeRespBlock.toolUse tc.id tc.name (decodedInput tc))) ∧
    (∀ tc : RespToolCall, tc.arguments = "" → decodedInput tc = Js.obj []) ∧
    (∀ (tc : RespToolCall) (v : Js),
      jsonParse tc.arguments = Except.ok v → decodedInput tc = v) := by
  have htp : ∀ (_h : tcs ≠ []), toolPartOf c = convertToolCalls tcs := by
    intro h
    unfold toolPartOf
    rw [h2]
    cases tcs with
    | nil => exact absurd rfl h
    | cons a l => rfl
  refine ⟨?_, ?_, decodedInput_of_empty, decodedInput_of_ok⟩
  · intro hbad
    have htcs_ne : tcs ≠ [] := by
      rcases hbad with ⟨tc, hmem, _⟩
      intro hnil; rw [hnil] at hmem; exact absurd hmem (by simp)
    have hconv := convertToolCalls_bad_arg tcs hbad
    unfold convertOpenAIToClaude
    rw [h1]
    dsimp only
    rw [htp htcs_ne]
    cases hcv : convertToolCalls tcs with
    | error m => rfl
    | ok bs => rw [hcv] at hconv; exact absurd hconv (by simp [Except.isOk, Except.toBool])
  · intro hok htcs_ne
    have hconv := convertToolCalls_decoded tcs hok
    have hmapne : (tcs.map fun tc =>
        ClaudeRespBlock.toolUse tc.id tc.name (decodedInput tc)) ≠ [] := by
      cases tcs with
      | nil => exact absurd rfl htcs_ne
      | cons a l => simp
    have hconc_ne : (textPartOf c ++ tcs.map (fun tc =>
        ClaudeRespBlock.toolUse tc.id tc.name (decodedInput tc))).isEmpty = false := by
      cases hx : textPartOf c ++ tcs.map (fun tc =>
          ClaudeRespBlock.toolUse tc.id tc.name (decodedInput tc)) with
      | nil => exact absurd (List.append_eq_nil.mp hx).2 hmapne
      | cons y ys => rfl
    unfold convertOpenAIToClaude
    rw [h1]
    dsimp only
    rw [htp htcs_ne, hconv]
    dsimp only
    rw [hconc_ne]
    simp only [Bool.false_eq_true, if_false]
    exact ⟨_, rfl, rfl⟩

/-- C5 witness: the amended theorem applied to a response with two tool
calls, one carrying the valid non-empty argument string `{"a":1.5}` (the
main decode path) and one carrying the empty string — the translation
succeeds and the tool-use blocks carry the decoded inputs. -/
theorem claim5_witness :
    ∃ r : ClaudeResponse,
      convertOpenAIToClaude
        (OpenAIResponse.mk "r"
          [RespChoice.mk (RespMessage.mk (some "txt")
              (some [RespToolCall.mk "t1" "f" "\x7b\"a\":1.5\x7d",
                     RespToolCall.mk "t2" "g" ""]))
            (some "tool_calls")] none) "m" = Except.ok r ∧
      r.content =
        textPartOf
          (RespChoice.mk (RespMessage.mk (some "txt")
              (some [RespToolCall.mk "t1" "f" "\x7b\"a\":1.5\x7d",
                     RespToolCall.mk "t2" "g" ""]))
            (some "tool_calls")) ++
          [RespToolCall.mk "t1" "f" "\x7b\"a\":1.5\x7d",
           RespToolCall.mk "t2" "g" ""].map
            (fun tc => ClaudeRespBlock.toolUse tc.id tc.name (decodedInput tc)) :=
  ((claim5_tool_argument_decoding
    (OpenAIResponse.mk "r"
      [RespChoice.mk (RespMessage.mk (some "txt")
          (some [RespToolCall.mk "t1" "f" "\x7b\"a\":1.5\x7d",
                 RespToolCall.mk "t2" "g" ""]))
        (some "tool_calls")] none) "m"
    (RespChoice.mk (RespMessage.mk (some "txt")
        (some [RespToolCall.mk "t1" "f" "\x7b\"a\":1.5\x7d",
               RespToolCall.mk "t2" "g" ""]))
      (some "tool_calls"))
    [RespToolCall.mk "t1" "f" "\x7b\"a\":1.5\x7d",
     RespToolCall.mk "t2" "g" ""] rfl rfl).2).1 (by decide) (by decide)

/-! ## Helper lemmas: streaming relay, per-chunk characterization -/

theorem startTextEvents_nil (b : Bool) : startTextEvents b [] = [] := by
  cases b <;> rfl

theorem startTextEvents_true (ts : List String) :
    startTextEvents true ts =
      ts.map fun t => Event.blockDelta 0 (DeltaPayload.textDelta t) := by
  cases ts <;> rfl

theorem startTextEvents_false_cons (t : String) (ts : List String) :
    startTextEvents false (t :: ts) =
      Event.blockStart 0 (ContentBlockInit.text "")
        :: (t :: ts).map fun u => Event.blockDelta 0 (DeltaPayload.textDelta u) := rfl

theorem textStage_eq (s : RelayState) (c : StreamChunk) :
    textStage s c =
      ({ s with hasStartedTextBlock := s.hasStartedTextBlock || (textFragOf c).isSome,
                outputTokens := s.outputTokens + (if (textFragOf c).isSome then 1 else 0) },
       match textFragOf c with
       | none => []
       | some t =>
         (if s.hasStartedTextBlock then []
          else [Event.blockStart s.currentBlockIndex (ContentBlockInit.text "")])
           ++ [Event.blockDelta s.currentBlockIndex (DeltaPayload.textDelta t)]) := by
  unfold textStage
  obtain ⟨hstb, idx, out, inp, fr, tcs, htc⟩ := s
  cases htf : textFragOf c <;> cases hstb <;> simp

theorem toolStage_eq (now : Nat) (s : RelayState) (c : StreamChunk) :
    toolStage now s c =
      { s with hasToolCalls := s.hasToolCalls || !(toolDeltasOf c).isEmpty,
               toolCalls := (toolDeltasOf c).foldl (applyToolDelta now) s.toolCalls } := by
  unfold toolStage
  cases htd : toolDeltasOf c with
  | nil => simp
  | cons d ds => simp

theorem finishStage_eq (s : RelayState) (c : StreamChunk) :
    finishStage s c = { s with finishReason := finishFold s.finishReason c } := by
  unfold finishStage finishFold
  cases c.finish_reason with
  | none => rfl
  | some r => by_cases hr : r = "" <;> simp [hr]

theorem usageStage_eq (s : RelayState) (c : StreamChunk) :
    usageStage s c = { s with inputTokens := usageFold s.inputTokens c } := by
  unfold usageStage usageFold
  cases c.usage_prompt_tokens with
  | none => rfl
  | some p => by_cases hp : p = 0 <;> simp [hp]

theorem processChunk_eq (now : Nat) (s : RelayState) (c : StreamChunk) :
    processChunk now s c =
      ({ hasStartedTextBlock := s.hasStartedTextBlock || (textFragOf c).isSome,
         currentBlockIndex := s.currentBlockIndex,
         outputTokens := s.outputTokens + (if (textFragOf c).isSome then 1 else 0),
         inputTokens := usageFold s.inputTokens c,
         finishReason := finishFold s.finishReason c,
         toolCalls := (toolDeltasOf c).foldl (applyToolDelta now) s.toolCalls,
         hasToolCalls := s.hasToolCalls || !(toolDeltasOf c).isEmpty },
       match textFragOf c with
       | none => []
       | some t =>
         (if s.hasStartedTextBlock then []
          else [Event.blockStart s.currentBlockIndex (ContentBlockInit.text "")])
           ++ [Event.blockDelta s.currentBlockIndex (DeltaPayload.textDelta t)]) := by
  unfold processChunk
  rw [textStage_eq]
  dsimp only
  rw [toolStage_eq, finishStage_eq, usageStage_eq]

theorem processChunks_eq (now : Nat) (cs : List StreamChunk) :
    ∀ (s : RelayState), s.currentBlockIndex = 0 →
    processChunks now s cs =
      ({ hasStartedTextBlock := s.hasStartedTextBlock || !(textsOf cs).isEmpty,
         currentBlockIndex := 0,
         outputTokens := s.outputTokens + (textsOf cs).length,
         inputTokens := cs.foldl usageFold s.inputTokens,
         finishReason := cs.foldl finishFold s.finishReason,
         toolCalls := (allDeltas cs).foldl (applyToolDelta now) s.toolCalls,
         hasToolCalls := s.hasToolCalls || cs.any (fun c => !(toolDeltasOf c).isEmpty) },
       startTextEvents s.hasStartedTextBlock (textsOf cs)) := by
  induction cs with
  | nil =>
    intro s h
    obtain ⟨hstb, idx, out, inp, fr, tcs, htc⟩ := s
    simp_all [processChunks, textsOf, allDeltas, startTextEvents]
  | cons c cs ih =>
    intro s h
    obtain ⟨a, b, o, i, f, t, g⟩ := s
    replace h : b = 0 := h
    subst h
    rw [show processChunks now (RelayState.mk a 0 o i f t g) (c :: cs) =
          ((processChunks now (processChunk now (RelayState.mk a 0 o i f t g) c).1 cs).1,
           (processChunk now (RelayState.mk a 0 o i f t g) c).2
             ++ (processChunks now (processChunk now (RelayState.mk a 0 o i f t g) c).1 cs).2)
        from rfl]
    rw [processChunk_eq]
    dsimp only
    rw [ih (RelayState.mk (a || (textFragOf c).isSome) 0
            (o + (if (textFragOf c).isSome then 1 else 0))
            (usageFold i c) (finishFold f c)
            ((toolDeltasOf c).foldl (applyToolDelta now) t)
            (g || !(toolDeltasOf c).isEmpty)) rfl]
    cases htf : textFragOf c <;> cases a <;>
      simp [htf, textsOf, List.filterMap_cons, allDeltas, List.foldl_append,
            startTextEvents_nil, startTextEvents_true, startTextEvents_false_cons,
            Bool.or_assoc, List.any_cons] <;>
      omega

/-! ## Helper lemmas: end-of-stream flush and canonical session shape -/

theorem toolFlush_eq_flatten (m : List (Nat × StreamingToolCall)) :
    ∀ idx, toolFlush idx m = flattenBlocks idx (m.map toolBlockShape) := by
  induction m with
  | nil => intro idx; rfl
  | cons p rest ih =>
    intro idx
    obtain ⟨k, tc⟩ := p
    by_cases harg : tc.arguments = "" <;>
      simp [toolFlush, flattenBlocks, toolBlockShape, harg, ih]

theorem mem_flattenBlocks_isBlockEvent :
    ∀ (bs : List (ContentBlockInit × List DeltaPayload)) (i : Nat) (e : Event),
    e ∈ flattenBlocks i bs → isBlockEvent e = true := by
  intro bs
  induction bs with
  | nil => intro i e he; exact absurd he (by simp [flattenBlocks])
  | cons b rest ih =>
    intro i e he
    obtain ⟨blk, ds⟩ := b
    simp only [flattenBlocks, List.mem_cons, List.mem_append] at he
    rcases he with rfl | hd | he
    · rfl
    · rcases List.mem_map.mp hd with ⟨d, _, rfl⟩
      rfl
    · rcases he with rfl | he'
      · rfl
      · exact ih (i + 1) e he'

theorem startIndices_map_delta (i : Nat) (ds : List DeltaPayload) :
    startIndices (ds.map (Event.blockDelta i)) = [] := by
  induction ds with
  | nil => rfl
  | cons d ds ih => simp only [startIndices, List.map_cons, List.filterMap_cons]; exact ih

theorem stopIndices_map_delta (i : Nat) (ds : List DeltaPayload) :
    stopIndices (ds.map (Event.blockDelta i)) = [] := by
  induction ds with
  | nil => rfl
  | cons d ds ih => simp only [stopIndices, List.map_cons, List.filterMap_cons]; exact ih

theorem startIndices_flatten :
    ∀ (bs : List (ContentBlockInit × List DeltaPayload)) (i : Nat),
    startIndices (flattenBlocks i bs) = List.range' i bs.length := by
  intro bs
  induction bs with
  | nil => intro i; rfl
  | cons b rest ih =>
    intro i
    obtain ⟨blk, ds⟩ := b
    have hmap := startIndices_map_delta i ds
    simp only [flattenBlocks, startIndices, List.filterMap_cons, List.filterMap_append,
               List.length_cons, List.range'_succ]
    simp only [startIndices] at hmap ih
    rw [hmap, ih]
    rfl

theorem stopIndices_flatten :
    ∀ (bs : List (ContentBlockInit × List DeltaPayload)) (i : Nat),
    stopIndices (flattenBlocks i bs) = List.range' i bs.length := by
  intro bs
  induction bs with
  | nil => intro i; rfl
  | cons b rest ih =>
    intro i
    obtain ⟨blk, ds⟩ := b
    have hmap := stopIndices_map_delta i ds
    simp only [flattenBlocks, stopIndices, List.filterMap_cons, List.filterMap_append,
               List.length_cons, List.range'_succ]
    simp only [stopIndices] at hmap ih
    rw [hmap, ih]
    rfl

/-- Canonical shape of one whole relay session: after `message_start`, the
emitted events are a well-nested contiguously indexed block sequence
followed by `message_delta` and `message_stop`. -/
theorem runStream_canonical (now : Nat) (msgId model : String)
    (cs : List StreamChunk) :
    ∃ (blocks : List (ContentBlockInit × List DeltaPayload)) (fr : String) (n : Nat),
      runStream now msgId model cs =
        Event.messageStart msgId model
          :: (flattenBlocks 0 blocks ++ [Event.messageDelta fr n, Event.messageStop]) := by
  unfold runStream
  rw [processChunks_eq now cs initRelayState rfl]
  dsimp only [initRelayState]
  unfold flushEnd
  dsimp only
  cases hts : textsOf cs with
  | nil =>
    by_cases htool : cs.any (fun c => !(toolDeltasOf c).isEmpty)
    · refine ⟨((allDeltas cs).foldl (applyToolDelta now) []).map toolBlockShape,
        cs.foldl finishFold "end_turn", 0 + ([] : List String).length, ?_⟩
      simp [hts, htool, startTextEvents_nil, toolFlush_eq_flatten]
    · refine ⟨[(ContentBlockInit.text "", [])],
        cs.foldl finishFold "end_turn", 0 + ([] : List String).length, ?_⟩
      simp [hts, htool, startTextEvents_nil, flattenBlocks]
  | cons t1 ts' =>
    by_cases htool : cs.any (fun c => !(toolDeltasOf c).isEmpty)
    · refine ⟨(ContentBlockInit.text "", (t1 :: ts').map DeltaPayload.textDelta)
          :: ((allDeltas cs).foldl (applyToolDelta now) []).map toolBlockShape,
        cs.foldl finishFold "end_turn", 0 + (t1 :: ts').length, ?_⟩
      simp [hts, htool, startTextEvents_false_cons, flattenBlocks,
            toolFlush_eq_flatten, List.map_map, Function.comp]
    · refine ⟨[(ContentBlockInit.text "", (t1 :: ts').map DeltaPayload.textDelta)],
        cs.foldl finishFold "end_turn", 0 + (t1 :: ts').length, ?_⟩
      simp [hts, htool, startTextEvents_false_cons, flattenBlocks,
            List.map_map, Function.comp]

/-! ## C1 — streaming block invariants -/

/-- C1: in every streaming session (any chunk sequence followed by stream
end), the per-block event subsequence is a canonical well-nested sequence
`flattenBlocks 0 blocks`: each block contributes one
`content_block_start` at its index, then its deltas, then exactly one
`content_block_stop` at the same index before any event of the next
index; the start indices (and the stop indices) are exactly
`0, 1, …, n-1` in emission order with no gaps or repeats, and starts and
stops are equinumerous. -/
theorem claim1_stream_block_invariants (now : Nat) (msgId model : String)
    (cs : List StreamChunk) :
    ∃ blocks : List (ContentBlockInit × List DeltaPayload),
      blockEventsOf (runStream now msgId model cs) = flattenBlocks 0 blocks ∧
      startIndices (runStream now msgId model cs) = List.range blocks.length ∧
      stopIndices (runStream now msgId model cs) = List.range blocks.length ∧
      (startIndices (runStream now msgId model cs)).length =
        (stopIndices (runStream now msgId model cs)).length := by
  obtain ⟨blocks, fr, n, heq⟩ := runStream_canonical now msgId model cs
  have hblock : blockEventsOf (runStream now msgId model cs) = flattenBlocks 0 blocks := by
    rw [heq]
    unfold blockEventsOf
    simp only [List.filter_cons, List.filter_append]
    rw [List.filter_eq_self.mpr (fun e he => mem_flattenBlocks_isBlockEvent blocks 0 e he)]
    simp [isBlockEvent]
  have hstart : startIndices (runStream now msgId model cs) = List.range blocks.length := by
    rw [heq, List.range_eq_range']
    have hfl := startIndices_flatten blocks 0
    simp only [startIndices, List.filterMap_cons, List.filterMap_append] at hfl ⊢
    simp [hfl]
  have hstop : stopIndices (runStream now msgId model cs) = List.range blocks.length := by
    rw [heq, List.range_eq_range']
    have hfl := stopIndices_flatten blocks 0
    simp only [stopIndices, List.filterMap_cons, List.filterMap_append] at hfl ⊢
    simp [hfl]
  exact ⟨blocks, hblock, hstart, hstop, by rw [hstart, hstop]⟩

/-! ## C8 — empty-session fallback block -/

/-- C8: when no chunk ever carried a truthy text fragment and no
tool-call delta was ever seen, the whole session is exactly
`message_start`, one empty text block opened and closed at index 0,
then `message_delta` (with zero output tokens) and `message_stop` — the
client always receives at least one content block, before
`message_delta`. -/
theorem claim8_empty_session_fallback (now : Nat) (msgId model : String)
    (cs : List StreamChunk)
    (h : ∀ c ∈ cs, textFragOf c = none ∧ toolDeltasOf c = []) :
    ∃ fr, runStream now msgId model cs =
      [Event.messageStart msgId model,
       Event.blockStart 0 (ContentBlockInit.text ""),
       Event.blockStop 0,
       Event.messageDelta fr 0,
       Event.messageStop] := by
  have htexts : textsOf cs = [] := by
    unfold textsOf
    rw [List.filterMap_eq_nil_iff]
    exact fun c hc => (h c hc).1
  have hany : (cs.any fun c => !(toolDeltasOf c).isEmpty) = false := by
    rw [List.any_eq_false]
    intro c hc
    simp [(h c hc).2]
  refine ⟨cs.foldl finishFold "end_turn", ?_⟩
  unfold runStream
  rw [processChunks_eq now cs initRelayState rfl]
  dsimp only [initRelayState]
  unfold flushEnd
  simp [htexts, hany, startTextEvents_nil]

/-- C8 witness: a session with one chunk carrying only a finish reason
and usage yields exactly the empty text block pair and the terminal
events. -/
theorem claim8_witness :
    ∃ fr, runStream 7 "mid" "mod"
        [⟨none, some [], some "stop", some 5⟩] =
      [Event.messageStart "mid" "mod",
       Event.blockStart 0 (ContentBlockInit.text ""),
       Event.blockStop 0,
       Event.messageDelta fr 0,
       Event.messageStop] :=
  claim8_empty_session_fallback 7 "mid" "mod" _ (by decide)

/-! ## Helper lemmas: the streaming tool-call slot map -/

theorem lookupTC_insert_self (m : List (Nat × StreamingToolCall)) (k : Nat)
    (tc : StreamingToolCall) (h : lookupTC m k = none) :
    lookupTC (insertTC m k tc) k = some tc := by
  induction m with
  | nil => simp [lookupTC, insertTC, List.find?_cons]
  | cons p m ih =>
    unfold lookupTC at h
    unfold lookupTC insertTC at ih ⊢
    rw [List.cons_append]
    cases hpk : (p.1 == k)
    · simp only [List.find?_cons, hpk] at h ⊢
      exact ih h
    · simp only [List.find?_cons, hpk] at h
      cases h

theorem lookupTC_insert_ne (m : List (Nat × StreamingToolCall)) (k j : Nat)
    (tc : StreamingToolCall) (h : j ≠ k) :
    lookupTC (insertTC m k tc) j = lookupTC m j := by
  induction m with
  | nil =>
    have hkj : (k == j) = false := beq_eq_false_iff_ne.mpr (Ne.symm h)
    simp [lookupTC, insertTC, List.find?_cons, hkj]
  | cons p m ih =>
    unfold lookupTC insertTC at ih ⊢
    rw [List.cons_append]
    cases hpj : (p.1 == j)
    · simp only [List.find?_cons, hpj]
      exact ih
    · simp only [List.find?_cons, hpj]

theorem lookupTC_update_self (m : List (Nat × StreamingToolCall)) (k : Nat)
    (tc tc' : StreamingToolCall) (h : lookupTC m k = some tc') :
    lookupTC (updateTC m k tc) k = some tc := by
  induction m with
  | nil => simp [lookupTC] at h
  | cons p m ih =>
    unfold lookupTC at h
    unfold lookupTC updateTC at ih ⊢
    rw [List.map_cons]
    cases hpk : (p.1 == k)
    · simp only [List.find?_cons, hpk] at h
      rw [if_neg Bool.false_ne_true]
      simp only [List.find?_cons, hpk]
      exact ih h
    · rw [if_pos rfl]
      simp [List.find?_cons]

theorem lookupTC_update_ne (m : List (Nat × StreamingToolCall)) (k j : Nat)
    (tc : StreamingToolCall) (h : j ≠ k) :
    lookupTC (updateTC m k tc) j = lookupTC m j := by
  induction m with
  | nil => rfl
  | cons p m ih =>
    unfold lookupTC updateTC at ih ⊢
    rw [List.map_cons]
    cases hpk : (p.1 == k)
    · rw [if_neg Bool.false_ne_true]
      simp only [List.find?_cons]
      cases hpj : (p.1 == j) <;> simp only [hpj]
      exact ih
    · rw [if_pos rfl]
      have hp1 : p.1 = k := by simpa using hpk
      have hkj : (k == j) = false := beq_eq_false_iff_ne.mpr (Ne.symm h)
      have hpj : (p.1 == j) = false := by rw [hp1]; exact hkj
      simp only [List.find?_cons, hkj, hpj]
      exact ih

theorem applyToolDelta_lookup (now : Nat) (m : List (Nat × StreamingToolCall))
    (d : ToolCallDelta) (j : Nat) :
    lookupTC (applyToolDelta now m d) j =
      if j = d.index then accumSlot now (lookupTC m d.index) d
      else lookupTC m j := by
  unfold applyToolDelta accumSlot
  cases hl : lookupTC m d.index with
  | some tc =>
    simp only [hl, Option.isNone_some, Bool.false_eq_true, if_false, Option.getD_some]
    by_cases hj : j = d.index
    · rw [if_pos hj, hj]
      exact lookupTC_update_self m d.index (updSTC tc d) tc hl
    · rw [if_neg hj]
      exact lookupTC_update_ne m d.index j (updSTC tc d) hj
  | none =>
    have h1 : lookupTC (insertTC m d.index (freshSTC now d)) d.index =
        some (freshSTC now d) := lookupTC_insert_self m d.index (freshSTC now d) hl
    simp only [hl, Option.isNone_none, if_true, h1, Option.getD_none]
    by_cases hj : j = d.index
    · rw [if_pos hj, hj]
      exact lookupTC_update_self _ d.index (updSTC (freshSTC now d) d) (freshSTC now d) h1
    · rw [if_neg hj,
          lookupTC_update_ne _ d.index j (updSTC (freshSTC now d) d) hj,
          lookupTC_insert_ne m d.index j (freshSTC now d) hj]

theorem foldl_applyToolDelta_lookup (now : Nat) (ds : List ToolCallDelta) :
    ∀ (m : List (Nat × StreamingToolCall)) (k : Nat),
    lookupTC (ds.foldl (applyToolDelta now) m) k =
      (deltasFor k ds).foldl (accumSlot now) (lookupTC m k) := by
  induction ds with
  | nil => intro m k; rfl
  | cons d ds ih =>
    intro m k
    rw [List.foldl_cons, ih, applyToolDelta_lookup]
    by_cases hk : d.index = k
    · subst hk
      rw [if_pos rfl]
      unfold deltasFor
      rw [List.filter_cons, if_pos (by simp), List.foldl_cons]
    · rw [if_neg (fun he => hk he.symm)]
      unfold deltasFor
      rw [List.filter_cons, if_neg (by simp [hk])]

theorem str_append_empty (s : String) : s ++ "" = s := by
  cases s with
  | mk l => exact congrArg String.mk (List.append_nil l)

theorem str_join_cons (a : String) (l : List String) :
    String.join (a :: l) = a ++ String.join l := by
  simp [String.join_eq]
  rfl

theorem updId_arguments (tc : StreamingToolCall) (d : ToolCallDelta) :
    (updId tc d).arguments = tc.arguments := by
  unfold updId
  cases hd : d.id <;> simp only [hd]
  split <;> rfl

theorem updName_arguments (tc : StreamingToolCall) (d : ToolCallDelta) :
    (updName tc d).arguments = tc.arguments := by
  unfold updName
  cases hd : d.fname <;> simp only [hd]
  split <;> rfl

theorem updArgs_arguments (tc : StreamingToolCall) (d : ToolCallDelta) :
    (updArgs tc d).arguments = tc.arguments ++ d.fargs.getD "" := by
  unfold updArgs
  cases hd : d.fargs <;> simp only [hd]
  · exact (str_append_empty tc.arguments).symm
  · rename_i a
    by_cases ha : a = ""
    · simp [ha, str_append_empty]
    · simp [ha]

theorem updSTC_arguments (tc : StreamingToolCall) (d : ToolCallDelta) :
    (updSTC tc d).arguments = tc.arguments ++ d.fargs.getD "" := by
  unfold updSTC
  rw [updArgs_arguments, updName_arguments, updId_arguments]

theorem updName_id (tc : StreamingToolCall) (d : ToolCallDelta) :
    (updName tc d).id = tc.id := by
  unfold updName
  cases hd : d.fname <;> simp only [hd]
  split <;> rfl

theorem updArgs_id (tc : StreamingToolCall) (d : ToolCallDelta) :
    (updArgs tc d).id = tc.id := by
  unfold updArgs
  cases hd : d.fargs <;> simp only [hd]
  split <;> rfl

theorem updSTC_id_of_none (tc : StreamingToolCall) (d : ToolCallDelta)
    (h : d.id = none) : (updSTC tc d).id = tc.id := by
  unfold updSTC
  rw [updArgs_id, updName_id]
  unfold updId
  rw [h]

theorem foldl_accumSlot_some (now : Nat) (ds : List ToolCallDelta) :
    ∀ tc : StreamingToolCall,
      ∃ tc', ds.foldl (accumSlot now) (some tc) = some tc' ∧
        tc'.arguments = tc.arguments ++ String.join (ds.map fun d => d.fargs.getD "") ∧
        ((∀ d ∈ ds, d.id = none) → tc'.id = tc.id) := by
  induction ds with
  | nil =>
    intro tc
    exact ⟨tc, rfl, by simp [String.join, str_append_empty], fun _ => rfl⟩
  | cons d ds ih =>
    intro tc
    obtain ⟨tc', h1, h2, h3⟩ := ih (updSTC tc d)
    refine ⟨tc', ?_, ?_, ?_⟩
    · rw [List.foldl_cons]
      simpa [accumSlot] using h1
    · rw [h2, updSTC_arguments, List.map_cons, str_join_cons, String.append_assoc]
    · intro hids
      rw [h3 (fun x hx => hids x (List.mem_cons_of_mem d hx)),
          updSTC_id_of_none tc d (hids d (List.mem_cons_self d ds))]

theorem freshSTC_id_of_none (now : Nat) (d : ToolCallDelta) (h : d.id = none) :
    (freshSTC now d).id = genId now d.index := by
  unfold freshSTC
  rw [h]

/-- What the slot map accumulates for slot `k` over a whole session:
the accumulator's argument string is the concatenation of all argument
fragments addressed to `k` in arrival order, and if the backend omitted
the id on every fragment of `k`, its id is the generated fresh id. -/
theorem slot_accumulated (now : Nat) (cs : List StreamChunk) (k : Nat)
    (h1 : deltasFor k (allDeltas cs) ≠ []) :
    ∃ tc, lookupTC ((allDeltas cs).foldl (applyToolDelta now) []) k = some tc ∧
      tc.arguments = String.join (argFragsFor k cs) ∧
      ((∀ d ∈ deltasFor k (allDeltas cs), d.id = none) → tc.id = genId now k) := by
  rw [foldl_applyToolDelta_lookup]
  cases hd : deltasFor k (allDeltas cs) with
  | nil => exact absurd hd h1
  | cons d0 rest =>
    have hd0 : d0 ∈ (allDeltas cs).filter (fun d => d.index == k) := by
      rw [show (allDeltas cs).filter (fun d => d.index == k) = deltasFor k (allDeltas cs)
            from rfl, hd]
      exact List.mem_cons_self _ _
    have hd0k : d0.index = k := by
      have := List.of_mem_filter hd0
      simpa using this
    obtain ⟨tc', h1', h2', h3'⟩ := foldl_accumSlot_some now rest (updSTC (freshSTC now d0) d0)
    refine ⟨tc', ?_, ?_, ?_⟩
    · rw [List.foldl_cons]
      simpa [accumSlot] using h1'
    · rw [h2', updSTC_arguments]
      unfold freshSTC
      unfold argFragsFor
      rw [hd, List.map_cons, str_join_cons]
      simp
    · intro hids
      have h0 : d0.id = none := hids d0 (List.mem_cons_self d0 rest)
      rw [h3' (fun x hx => hids x (List.mem_cons_of_mem d0 hx)),
          updSTC_id_of_none _ d0 h0, freshSTC_id_of_none now d0 h0, hd0k]

/-! ## Helper lemmas: locating one tool-use block in the flush -/

theorem toolFlush_filter_start_lt (m : List (Nat × StreamingToolCall)) :
    ∀ idx i, i < idx → (toolFlush idx m).filter (isToolStartAt i) = [] := by
  induction m with
  | nil => intro idx i _; rfl
  | cons p rest ih =>
    intro idx i hlt
    obtain ⟨k, tc⟩ := p
    have hne : (idx == i) = false := beq_eq_false_iff_ne.mpr (Nat.ne_of_gt hlt)
    have hrest := ih (idx + 1) i (Nat.lt_succ_of_lt hlt)
    by_cases harg : tc.arguments = "" <;>
      simp [toolFlush, harg, isToolStartAt, List.filter_cons, List.filter_append,
            hne, hrest]

theorem toolFlush_filter_json_lt (m : List (Nat × StreamingToolCall)) :
    ∀ idx i, i < idx → (toolFlush idx m).filter (isInputJsonDeltaAt i) = [] := by
  induction m with
  | nil => intro idx i _; rfl
  | cons p rest ih =>
    intro idx i hlt
    obtain ⟨k, tc⟩ := p
    have hne : (idx == i) = false := beq_eq_false_iff_ne.mpr (Nat.ne_of_gt hlt)
    have hrest := ih (idx + 1) i (Nat.lt_succ_of_lt hlt)
    by_cases harg : tc.arguments = "" <;>
      simp [toolFlush, harg, isInputJsonDeltaAt, List.filter_cons, List.filter_append,
            hne, hrest]

theorem toolFlush_filter_start_at (m : List (Nat × StreamingToolCall)) :
    ∀ idx j k tc, m[j]? = some (k, tc) →
    (toolFlush idx m).filter (isToolStartAt (idx + j)) =
      [Event.blockStart (idx + j) (ContentBlockInit.toolUse tc.id tc.name)] := by
  induction m with
  | nil => intro idx j k tc h; simp at h
  | cons p rest ih =>
    intro idx j k tc h
    obtain ⟨k', tc'⟩ := p
    cases j with
    | zero =>
      simp only [List.getElem?_cons_zero, Option.some.injEq, Prod.mk.injEq] at h
      obtain ⟨rfl, rfl⟩ := h
      have hrest := List.filter_eq_nil_iff.mp
        (toolFlush_filter_start_lt rest (idx + 1) idx (by omega))
      by_cases harg : tc'.arguments = "" <;>
        (simp [toolFlush, harg, isToolStartAt, List.filter_cons, List.filter_append]
         ; intro a ha
         ; simpa [isToolStartAt] using hrest a ha)
    | succ j' =>
      simp only [List.getElem?_cons_succ] at h
      have hrec := ih (idx + 1) j' k tc h
      rw [show idx + (j' + 1) = (idx + 1) + j' from by omega]
      by_cases harg : tc'.arguments = "" <;>
        simp [toolFlush, harg, isToolStartAt, List.filter_cons, List.filter_append,
              hrec, show (idx == idx + 1 + j') = false from by
                rw [beq_eq_false_iff_ne]; omega]

theorem toolFlush_filter_json_at (m : List (Nat × StreamingToolCall)) :
    ∀ idx j k tc, m[j]? = some (k, tc) → tc.arguments ≠ "" →
    (toolFlush idx m).filter (isInputJsonDeltaAt (idx + j)) =
      [Event.blockDelta (idx + j) (DeltaPayload.inputJsonDelta tc.arguments)] := by
  induction m with
  | nil => intro idx j k tc h _; simp at h
  | cons p rest ih =>
    intro idx j k tc h hne_arg
    obtain ⟨k', tc'⟩ := p
    cases j with
    | zero =>
      simp only [List.getElem?_cons_zero, Option.some.injEq, Prod.mk.injEq] at h
      obtain ⟨rfl, rfl⟩ := h
      have hrest := List.filter_eq_nil_iff.mp
        (toolFlush_filter_json_lt rest (idx + 1) idx (by omega))
      simp [toolFlush, hne_arg, isInputJsonDeltaAt, List.filter_cons,
            List.filter_append]
      intro a ha
      simpa [isInputJsonDeltaAt] using hrest a ha
    | succ j' =>
      simp only [List.getElem?_cons_succ] at h
      have hrec := ih (idx + 1) j' k tc h hne_arg
      rw [show idx + (j' + 1) = (idx + 1) + j' from by omega]
      by_cases harg : tc'.arguments = "" <;>
        simp [toolFlush, harg, isInputJsonDeltaAt, List.filter_cons, List.filter_append,
              hrec, show (idx == idx + 1 + j') = false from by
                rw [beq_eq_false_iff_ne]; omega]

theorem toolStart_isToolEvent (i : Nat) (e : Event)
    (h : isToolStartAt i e = true) : isToolEvent e = true := by
  cases e with
  | blockStart j b => cases b <;> simp [isToolStartAt, isToolEvent] at h ⊢
  | blockDelta j d => cases d <;> simp [isToolStartAt, isToolEvent] at h ⊢
  | _ => simp [isToolStartAt] at h

theorem json_isToolEvent (i : Nat) (e : Event)
    (h : isInputJsonDeltaAt i e = true) : isToolEvent e = true := by
  cases e with
  | blockStart j b => cases b <;> simp [isInputJsonDeltaAt, isToolEvent] at h ⊢
  | blockDelta j d => cases d <;> simp [isInputJsonDeltaAt, isToolEvent] at h ⊢
  | _ => simp [isInputJsonDeltaAt] at h

theorem mem_map_textDelta_no_tool (ts : List String) (e : Event)
    (he : e ∈ ts.map fun t => Event.blockDelta 0 (DeltaPayload.textDelta t)) :
    isToolEvent e = false := by
  rcases List.mem_map.mp he with ⟨t, _, rfl⟩
  rfl

theorem startTextEvents_no_tool (b : Bool) (ts : List String) :
    ∀ e ∈ startTextEvents b ts, isToolEvent e = false := by
  intro e he
  cases b with
  | true =>
    rw [startTextEvents_true] at he
    exact mem_map_textDelta_no_tool ts e he
  | false =>
    cases ts with
    | nil => rw [startTextEvents_nil] at he; cases he
    | cons t ts' =>
      rw [startTextEvents_false_cons] at he
      rcases List.mem_cons.mp he with rfl | he'
      · rfl
      · exact mem_map_textDelta_no_tool _ e he'

theorem filter_startTextEvents_start (i : Nat) (b : Bool) (ts : List String) :
    (startTextEvents b ts).filter (isToolStartAt i) = [] := by
  rw [List.filter_eq_nil_iff]
  intro e he hcontra
  have h1 := startTextEvents_no_tool b ts e he
  rw [toolStart_isToolEvent i e hcontra] at h1
  cases h1

theorem filter_startTextEvents_json (i : Nat) (b : Bool) (ts : List String) :
    (startTextEvents b ts).filter (isInputJsonDeltaAt i) = [] := by
  rw [List.filter_eq_nil_iff]
  intro e he hcontra
  have h1 := startTextEvents_no_tool b ts e he
  rw [json_isToolEvent i e hcontra] at h1
  cases h1

theorem find?_beq_key (m : List (Nat × StreamingToolCall)) (k : Nat)
    (p : Nat × StreamingToolCall)
    (hf : m.find? (fun q => q.1 == k) = some p) : p.1 = k := by
  induction m with
  | nil => cases hf
  | cons a m ih =>
    simp only [List.find?_cons] at hf
    cases hak : (a.1 == k) <;> simp only [hak] at hf
    · exact ih hf
    · obtain rfl := Option.some.inj hf
      simpa using hak

theorem lookupTC_pos (m : List (Nat × StreamingToolCall)) (k : Nat)
    (tc : StreamingToolCall) (h : lookupTC m k = some tc) :
    ∃ j : Nat, m[j]? = some (k, tc) := by
  unfold lookupTC at h
  cases hf : m.find? (fun p => p.1 == k) with
  | none => rw [hf] at h; cases h
  | some p =>
    rw [hf] at h
    have hp2 : p.2 = tc := Option.some.inj h
    have hp1 : p.1 = k := find?_beq_key m k p hf
    have hmem : p ∈ m := List.mem_of_find?_eq_some hf
    have hpe : p = (k, tc) := by
      obtain ⟨p1, p2⟩ := p
      simp only [Prod.mk.injEq]
      exact ⟨hp1, hp2⟩
    rw [hpe] at hmem
    exact List.getElem?_of_mem hmem

/-! ## C2 — tool-call accumulation across delta fragments -/

/-- C2: for every streaming session and every tool-call slot `k` that
received at least one delta fragment whose argument fragments concatenate
to a non-empty string: no tool-use block event is emitted before the
backend stream ends; the slot's accumulator holds the concatenation of
all its argument fragments in arrival order; after stream end there is a
block index `i` carrying exactly one tool-use `content_block_start` (with
the accumulated id and name) and exactly one `content_block_delta` of
kind `input_json_delta`, whose payload is that full concatenation; and if
the backend omitted the tool-call id on every fragment of the slot, the
accumulated id is the generated fresh id. -/
theorem claim2_tool_call_accumulation (now : Nat) (msgId model : String)
    (cs : List StreamChunk) (k : Nat)
    (h1 : deltasFor k (allDeltas cs) ≠ [])
    (h2 : String.join (argFragsFor k cs) ≠ "") :
    (∀ e ∈ (processChunks now initRelayState cs).2, isToolEvent e = false) ∧
    ∃ (i : Nat) (tc : StreamingToolCall),
      lookupTC (processChunks now initRelayState cs).1.toolCalls k = some tc ∧
      tc.arguments = String.join (argFragsFor k cs) ∧
      (runStream now msgId model cs).filter (isToolStartAt i) =
        [Event.blockStart i (ContentBlockInit.toolUse tc.id tc.name)] ∧
      (runStream now msgId model cs).filter (isInputJsonDeltaAt i) =
        [Event.blockDelta i (DeltaPayload.inputJsonDelta tc.arguments)] ∧
      ((∀ d ∈ deltasFor k (allDeltas cs), d.id = none) → tc.id = genId now k) := by
  have hPC := processChunks_eq now cs initRelayState rfl
  constructor
  · intro e he
    rw [hPC] at he
    exact startTextEvents_no_tool _ _ e he
  · obtain ⟨tc, hlook, hargs, hid⟩ := slot_accumulated now cs k h1
    have hlook' : lookupTC (processChunks now initRelayState cs).1.toolCalls k =
        some tc := by rw [hPC]; exact hlook
    obtain ⟨j, hj⟩ := lookupTC_pos _ k tc hlook
    have hne_all : allDeltas cs ≠ [] := by
      intro hn
      apply h1
      unfold deltasFor
      rw [hn]
      rfl
    have htool : (cs.any fun c => !(toolDeltasOf c).isEmpty) = true := by
      by_contra hf'
      have hff : (cs.any fun c => !(toolDeltasOf c).isEmpty) = false := by
        revert hf'
        cases cs.any fun c => !(toolDeltasOf c).isEmpty <;> simp
      rw [List.any_eq_false] at hff
      apply hne_all
      unfold allDeltas
      rw [List.flatten_eq_nil_iff]
      intro l hl
      rcases List.mem_map.mp hl with ⟨c, hc, rfl⟩
      have := hff c hc
      simpa using this
    have hargs_ne : tc.arguments ≠ "" := by rw [hargs]; exact h2
    have hrun : runStream now msgId model cs =
        Event.messageStart msgId model ::
          ((processChunks now initRelayState cs).2 ++
            flushEnd (processChunks now initRelayState cs).1) := rfl
    rw [hrun, hPC]
    dsimp only [initRelayState]
    unfold flushEnd
    dsimp only
    cases hts : textsOf cs with
    | nil =>
      refine ⟨0 + j, tc, hlook, hargs, ?_, ?_, hid⟩
      · simp only [List.isEmpty_nil, Bool.not_true, Bool.false_or, Bool.or_false,
                   Bool.false_eq_true, if_false, htool, if_true, Bool.and_false,
                   Bool.false_and, Bool.not_false, startTextEvents_nil,
                   List.nil_append, List.filter_append, List.filter_cons]
        rw [toolFlush_filter_start_at _ 0 j k tc hj]
        simp [isToolStartAt]
      · simp only [List.isEmpty_nil, Bool.not_true, Bool.false_or, Bool.or_false,
                   Bool.false_eq_true, if_false, htool, if_true, Bool.and_false,
                   Bool.false_and, Bool.not_false, startTextEvents_nil,
                   List.nil_append, List.filter_append, List.filter_cons]
        rw [toolFlush_filter_json_at _ 0 j k tc hj hargs_ne]
        simp [isInputJsonDeltaAt]
    | cons t1 ts' =>
      refine ⟨1 + j, tc, hlook, hargs, ?_, ?_, hid⟩
      · simp only [List.isEmpty_cons, Bool.not_false, Bool.or_true, Bool.false_or,
                   if_true, htool, Bool.and_false, Bool.false_and, Nat.zero_add,
                   List.filter_append, List.filter_cons,
                   filter_startTextEvents_start]
        rw [toolFlush_filter_start_at _ 1 j k tc hj]
        simp [isToolStartAt]
      · simp only [List.isEmpty_cons, Bool.not_false, Bool.or_true, Bool.false_or,
                   if_true, htool, Bool.and_false, Bool.false_and, Nat.zero_add,
                   List.filter_append, List.filter_cons,
                   filter_startTextEvents_json]
        rw [toolFlush_filter_json_at _ 1 j k tc hj hargs_ne]
        simp [isInputJsonDeltaAt]

/-- C2 witness: one tool call's arguments split across three fragments at
slot 0 (`"ab"`, `"cd"`, `"ef"`), with the id omitted by the backend. -/
theorem claim2_witness :
    (∀ e ∈ (processChunks 9 initRelayState
        [StreamChunk.mk none (some [ToolCallDelta.mk 0 none (some "get") (some "ab")]) none none,
         StreamChunk.mk none (some [ToolCallDelta.mk 0 none none (some "cd")]) none none,
         StreamChunk.mk none (some [ToolCallDelta.mk 0 none none (some "ef")]) none none]).2,
      isToolEvent e = false) ∧
    ∃ (i : Nat) (tc : StreamingToolCall),
      lookupTC (processChunks 9 initRelayState
        [StreamChunk.mk none (some [ToolCallDelta.mk 0 none (some "get") (some "ab")]) none none,
         StreamChunk.mk none (some [ToolCallDelta.mk 0 none none (some "cd")]) none none,
         StreamChunk.mk none (some [ToolCallDelta.mk 0 none none (some "ef")]) none none]).1.toolCalls 0 =
        some tc ∧
      tc.arguments = String.join (argFragsFor 0
        [StreamChunk.mk none (some [ToolCallDelta.mk 0 none (some "get") (some "ab")]) none none,
         StreamChunk.mk none (some [ToolCallDelta.mk 0 none none (some "cd")]) none none,
         StreamChunk.mk none (some [ToolCallDelta.mk 0 none none (some "ef")]) none none]) ∧
      (runStream 9 "mid" "mod"
        [StreamChunk.mk none (some [ToolCallDelta.mk 0 none (some "get") (some "ab")]) none none,
         StreamChunk.mk none (some [ToolCallDelta.mk 0 none none (some "cd")]) none none,
         StreamChunk.mk none (some [ToolCallDelta.mk 0 none none (some "ef")]) none none]).filter
          (isToolStartAt i) =
        [Event.blockStart i (ContentBlockInit.toolUse tc.id tc.name)] ∧
      (runStream 9 "mid" "mod"
        [StreamChunk.mk none (some [ToolCallDelta.mk 0 none (some "get") (some "ab")]) none none,
         StreamChunk.mk none (some [ToolCallDelta.mk 0 none none (some "cd")]) none none,
         StreamChunk.mk none (some [ToolCallDelta.mk 0 none none (some "ef")]) none none]).filter
          (isInputJsonDeltaAt i) =
        [Event.blockDelta i (DeltaPayload.inputJsonDelta tc.arguments)] ∧
      ((∀ d ∈ deltasFor 0 (allDeltas
        [StreamChunk.mk none (some [ToolCallDelta.mk 0 none (some "get") (some "ab")]) none none,
         StreamChunk.mk none (some [ToolCallDelta.mk 0 none none (some "cd")]) none none,
         StreamChunk.mk none (some [ToolCallDelta.mk 0 none none (some "ef")]) none none]),
          d.id = none) → tc.id = genId 9 0) :=
  claim2_tool_call_accumulation 9 "mid" "mod"
    [StreamChunk.mk none (some [ToolCallDelta.mk 0 none (some "get") (some "ab")]) none none,
     StreamChunk.mk none (some [ToolCallDelta.mk 0 none none (some "cd")]) none none,
     StreamChunk.mk none (some [ToolCallDelta.mk 0 none none (some "ef")]) none none]
    0 (by decide) (by decide)

end SonaRouter
